import Mathlib

/-!
# go-fsky: the object reader of `fsdb/fsmysql` (`objreader.go`)

A shallow embedding of the descriptor builder (`newObjInfo`), the descriptor
cache (`s_ObjCache`), the accessor (`dbkeyMapValues`) and the column-type
extractor (`dbkeyTypes`), followed by the properties proved about them.

Modelling conventions

* Go strings are sequences of Unicode code points (`String`); the standard
  library functions `strings.TrimSpace` and `strings.Split` are embedded on
  the character list of a string.
* A Go map is an association list with pairwise distinct keys (`GoMap`).
  The order in which `range` visits a map is not fixed by the language: it is
  the parameter `MapRange`.
* What `reflect` exposes of a type is the data of `GoType`; a struct tag is the
  list of its `key:"value"` pairs.
* Memory is a function from addresses to stored contents; an instance of a
  struct is the address it starts at, and a field lives at that address plus
  the field's offset.
* The package-level variables `_colTags`, `_colTypeTags` and `_objcache` are
  fields of `State`, passed explicitly. `ResetDBTags` and `ResetDBTypeTags` keep
  the slice they are given, so the caller can later write its elements: the
  state records that the slice is the caller's, and the write is a step of its
  own (`writeColTags`, `writeColTypeTags`). Calls are sequential: the locks of
  `s_ObjCache` are not modelled.
-/

namespace GoFsky

/-! ## Go maps -/

/-- A Go `map[string]V`. -/
abbrev GoMap (V : Type) := List (String × V)

/-- The lookup `v, ok := m[k]`: `none` when `ok` is false. -/
def GoMap.get {V : Type} : GoMap V → String → Option V
  | [], _ => none
  | (k', v) :: m, k => if k' = k then some v else GoMap.get m k

/-- The map without its entry for `k`, if it has one. -/
def GoMap.erase {V : Type} : GoMap V → String → GoMap V
  | [], _ => []
  | (k', v) :: m, k => if k' = k then GoMap.erase m k else (k', v) :: GoMap.erase m k

/-- The assignment `m[k] = v`: an entry already stored under `k` is replaced. -/
def GoMap.set {V : Type} (m : GoMap V) (k : String) (v : V) : GoMap V :=
  (k, v) :: m.erase k

/-- The keys of a map. -/
def GoMap.keys {V : Type} (m : GoMap V) : List String :=
  m.map Prod.fst

/-! ## Strings -/

/-- The characters `unicode.IsSpace` accepts. -/
def isSpace (c : Char) : Bool :=
  c.toNat = 0x09 || c.toNat = 0x0A || c.toNat = 0x0B || c.toNat = 0x0C || c.toNat = 0x0D ||
  c.toNat = 0x20 || c.toNat = 0x85 || c.toNat = 0xA0 || c.toNat = 0x1680 ||
  (0x2000 ≤ c.toNat && c.toNat ≤ 0x200A) || c.toNat = 0x2028 || c.toNat = 0x2029 ||
  c.toNat = 0x202F || c.toNat = 0x205F || c.toNat = 0x3000

/-- The character list of `strings.TrimSpace`: leading and trailing white space removed. -/
def trimSpaceChars (cs : List Char) : List Char :=
  ((cs.dropWhile isSpace).reverse.dropWhile isSpace).reverse

/-- Go `strings.TrimSpace`. -/
def TrimSpace (s : String) : String :=
  String.mk (trimSpaceChars s.data)

/-- The character lists of `strings.Split` for a one-character separator. -/
def splitChars (sep : Char) : List Char → List (List Char)
  | [] => [[]]
  | c :: cs =>
    if c = sep then [] :: splitChars sep cs
    else
      match splitChars sep cs with
      | [] => [[c]]
      | p :: ps => (c :: p) :: ps

/-- Go `strings.Split(s, sep)` for a one-character separator `sep`. -/
def Split (s : String) (sep : Char) : List String :=
  (splitChars sep s.data).map String.mk

/-! ## What `reflect` exposes -/

/-- A struct tag `reflect.StructTag`, as the list of its `key:"value"` pairs. -/
abbrev StructTag := List (String × String)

/-- Go `StructTag.Get`: the value of the first pair with this key, `""` when there is none. -/
def StructTag.Get : StructTag → String → String
  | [], _ => ""
  | (k, v) :: rest, key => if k = key then v else StructTag.Get rest key

/-- The kinds of `reflect.Kind` other than `Struct` and `Ptr`. -/
inductive OtherKind where
  | Bool | Int | Int8 | Int16 | Int32 | Int64
  | Uint | Uint8 | Uint16 | Uint32 | Uint64 | Uintptr
  | Float32 | Float64 | Complex64 | Complex128
  | Array | Chan | Func | Interface | Map | Slice | String | UnsafePointer
  deriving DecidableEq, Repr

/-- Go `reflect.Kind`. -/
inductive Kind where
  | Ptr
  | Struct
  | other (k : OtherKind)
  deriving DecidableEq, Repr

/-- Go `reflect.StructField`, `Typ` being its field `Type`. -/
structure StructField (τ : Type) where
  Name : String
  Tag : StructTag
  Typ : τ
  Offset : Nat

/-- Go `reflect.Type`: a pointer type, a struct type with its package path, name,
`String()` and fields, or a type of another kind. An anonymous struct has name `""`. -/
inductive GoType where
  | ptr (elem : GoType)
  | struct (pkgPath name str : String) (fields : List (StructField GoType))
  | other (kind : OtherKind) (pkgPath name str : String)

/-- Go `Type.Kind()`. -/
def GoType.Kind : GoType → Kind
  | .ptr _ => Kind.Ptr
  | .struct _ _ _ _ => Kind.Struct
  | .other k _ _ _ => Kind.other k

/-- Go `Type.Name()`. -/
def GoType.Name : GoType → String
  | .ptr _ => ""
  | .struct _ name _ _ => name
  | .other _ _ name _ => name

/-- Go `Type.PkgPath()`. -/
def GoType.PkgPath : GoType → String
  | .ptr _ => ""
  | .struct pkgPath _ _ _ => pkgPath
  | .other _ pkgPath _ _ => pkgPath

/-- Go `Type.String()`. -/
def GoType.String : GoType → String
  | .ptr elem => "*" ++ GoType.String elem
  | .struct _ _ str _ => str
  | .other _ _ _ str => str

/-- The fields `Field(0)`, ..., `Field(NumField()-1)` of a struct type. -/
def GoType.fields : GoType → List (StructField GoType)
  | .struct _ _ _ fields => fields
  | _ => []

/-- An argument of type `interface{}`: untyped nil, or a value of dynamic type `t`.
When `t` is a pointer type `p` is the address the pointer holds, `none` for a nil
pointer; for the other types `p` is not read. -/
inductive Obj where
  | nil
  | typed (t : GoType) (p : Option Nat)

/-- The contents of memory, by address. -/
abbrev Mem := Nat → Nat

/-- A value stored in a result map: what `Interface()` returns. -/
inductive Iface where
  | value (t : GoType) (contents : Nat)
  | pointer (t : GoType) (addr : Nat)

/-- The errors of `objreader.go`, one constructor for each place that builds one. -/
inductive Err where
  /-- Built by `errors.New("object must be a not nil type value.")` -/
  | nilType
  /-- Built by `errors.New("object type must be a pointer of struct.")` -/
  | notPointer
  /-- Built by `errors.New("object must be a not nil struct object pointer.")` -/
  | notStruct
  /-- Built by `errors.New("object type must be a unanonymous struct.")` -/
  | anonymous
  /-- Built by `errors.New("object is not allow to be a nil value.")` -/
  | nilPointer
  /-- Built by `fmt.Errorf("%q is not the member name of %v", mname, vobj.Type())` -/
  | notMember (mname : String) (t : GoType)
  /-- Built by `errors.New("object mustn't be a nil type value.")` -/
  | typesNilType
  /-- Built by `errors.New("object must be a struct object or a pointer of struct object.")` -/
  | typesNotStruct

/-! ## Descriptors: `s_ObjMember`, `s_ObjInfo`, `newObjInfo` -/

/-- Go `s_ObjMember`: storage key, type and offset of a mapped field. -/
structure s_ObjMember where
  dbkey : String
  vtype : GoType
  offset : Nat

/-- Go `s_ObjInfo`: the descriptor table `map[string]*s_ObjMember`, by field name. -/
abbrev s_ObjInfo := GoMap s_ObjMember

/-- The inner loop of `newObjInfo`, `for _, tag := range _colTags`, started with
`dbkey == ""`: `none` when it leaves by `continue L`, otherwise the value of `dbkey`
after the loop. -/
def newObjInfoKey (tag : StructTag) : List String → Option String
  | [] => some ""
  | t :: tags =>
    let dbkey := tag.Get t
    if dbkey = "-" then none
    else if dbkey ≠ "" then some dbkey
    else newObjInfoKey tag tags

/-- The outer loop of `newObjInfo` over the fields not yet visited, `members` being the
map built so far. -/
def newObjInfoLoop (colTags : List String) : List (StructField GoType) → s_ObjInfo → s_ObjInfo
  | [], members => members
  | tfield :: rest, members =>
    match newObjInfoKey tfield.Tag colTags with
    | none => newObjInfoLoop colTags rest members
    | some dbkey =>
      let dbkey := if dbkey = "" then tfield.Name else dbkey
      newObjInfoLoop colTags rest
        (members.set tfield.Name { dbkey := dbkey, vtype := tfield.Typ, offset := tfield.Offset })

/-- Go `newObjInfo`, under the key tags `_colTags`. -/
def newObjInfo (colTags : List String) (tobj : GoType) : s_ObjInfo :=
  newObjInfoLoop colTags tobj.fields []

/-- The order in which `for _, info := range this` visits a descriptor table: some
rearrangement of its entries, chosen by the runtime. -/
structure MapRange where
  order : s_ObjInfo → s_ObjInfo
  perm : ∀ m, (order m).Perm m

/-- The value `reflect.NewAt(info.vtype, unsafe.Pointer(vobj.UnsafeAddr()+info.offset)).Elem().Interface()`
for the struct at address `addr`. -/
def memberValue (mem : Mem) (addr : Nat) (info : s_ObjMember) : Iface :=
  Iface.value info.vtype (mem (addr + info.offset))

/-- The value `reflect.NewAt(info.vtype, unsafe.Pointer(vobj.UnsafeAddr()+info.offset)).Interface()`
for the struct at address `addr`. -/
def memberPointer (addr : Nat) (info : s_ObjMember) : Iface :=
  Iface.pointer info.vtype (addr + info.offset)

/-- The loop `for _, info := range this` of `dbkeyMapMembers` over the entries not yet visited. -/
def dbkeyMapMembersAll (mem : Mem) (addr : Nat) : List (String × s_ObjMember) → GoMap Iface → GoMap Iface
  | [], vs => vs
  | (_, info) :: rest, vs =>
    dbkeyMapMembersAll mem addr rest (vs.set info.dbkey (memberValue mem addr info))

/-- The loop `for _, mname := range mnames` of `dbkeyMapMembers`. -/
def dbkeyMapMembersSome (this : s_ObjInfo) (mem : Mem) (tobj : GoType) (addr : Nat) :
    List String → GoMap Iface → Except Err (GoMap Iface)
  | [], vs => Except.ok vs
  | mname :: rest, vs =>
    let mname := TrimSpace mname
    match this.get mname with
    | none => Except.error (Err.notMember mname tobj)
    | some info =>
      dbkeyMapMembersSome this mem tobj addr rest (vs.set info.dbkey (memberValue mem addr info))

/-- Go `s_ObjInfo.dbkeyMapMembers`, `vobj` being a pointer to the struct of type `tobj`
at address `addr`. -/
def s_ObjInfo.dbkeyMapMembers (this : s_ObjInfo) (rng : MapRange) (mem : Mem) (tobj : GoType)
    (addr : Nat) (mnames : List String) : Except Err (GoMap Iface) :=
  if mnames.length = 0 then
    Except.ok (dbkeyMapMembersAll mem addr (rng.order this) [])
  else
    dbkeyMapMembersSome this mem tobj addr mnames []

/-- The loop `for _, info := range this` of `dbkeyMapPMembers` over the entries not yet visited. -/
def dbkeyMapPMembersAll (addr : Nat) : List (String × s_ObjMember) → GoMap Iface → GoMap Iface
  | [], ps => ps
  | (_, info) :: rest, ps =>
    dbkeyMapPMembersAll addr rest (ps.set info.dbkey (memberPointer addr info))

/-- The loop `for _, mname := range mnames` of `dbkeyMapPMembers`. -/
def dbkeyMapPMembersSome (this : s_ObjInfo) (tobj : GoType) (addr : Nat) :
    List String → GoMap Iface → Except Err (GoMap Iface)
  | [], ps => Except.ok ps
  | mname :: rest, ps =>
    let mname := TrimSpace mname
    match this.get mname with
    | none => Except.error (Err.notMember mname tobj)
    | some info =>
      dbkeyMapPMembersSome this tobj addr rest (ps.set info.dbkey (memberPointer addr info))

/-- Go `s_ObjInfo.dbkeyMapPMembers`, `vobj` being a pointer to the struct of type `tobj`
at address `addr`. -/
def s_ObjInfo.dbkeyMapPMembers (this : s_ObjInfo) (rng : MapRange) (tobj : GoType)
    (addr : Nat) (mnames : List String) : Except Err (GoMap Iface) :=
  if mnames.length = 0 then
    Except.ok (dbkeyMapPMembersAll addr (rng.order this) [])
  else
    dbkeyMapPMembersSome this tobj addr mnames []

/-! ## The cache and the package state -/

/-- The package-level state: the elements of the slices `_colTags` and `_colTypeTags` and
the map `_objcache.objs`. (The fields `colTags` and `colTypeTags` of `s_ObjCache` itself
are never read or written.) `colTagsShared` tells that `_colTags` is a slice a caller
passed to `ResetDBTags`, which keeps it without copying it, so that the caller can still
write its elements; `colTypeTagsShared` tells the same of `_colTypeTags` and
`ResetDBTypeTags`. The slices the package starts with are its own. -/
structure State where
  colTags : List String
  colTypeTags : List String
  objs : GoMap s_ObjInfo
  colTagsShared : Bool
  colTypeTagsShared : Bool

/-- The state at package initialisation. -/
def State.init : State :=
  { colTags := ["mysql", "db"], colTypeTags := ["mysqltd", "dbtd"], objs := [],
    colTagsShared := false, colTypeTagsShared := false }

/-- The cache key `tobj.PkgPath() + ":" + tobj.String()`. -/
def cacheKey (tobj : GoType) : String :=
  tobj.PkgPath ++ ":" ++ tobj.String

/-- Go `s_ObjCache.get`: `none` is the nil table. -/
def s_ObjCache.get (st : State) (tobj : GoType) : Option s_ObjInfo :=
  st.objs.get (cacheKey tobj)

/-- Go `s_ObjCache.add`. -/
def s_ObjCache.add (st : State) (tobj : GoType) : s_ObjInfo × State :=
  let objInfo := newObjInfo st.colTags tobj
  (objInfo, { st with objs := st.objs.set (cacheKey tobj) objInfo })

/-- Go `s_ObjCache.clear`. -/
def s_ObjCache.clear (st : State) : State :=
  { st with objs := [] }

/-- Go `s_ObjCache.resetDBTags`: `_colTags = tags` makes `_colTags` the slice of the
caller, not a copy of it. -/
def s_ObjCache.resetDBTags (st : State) (tags : List String) : State :=
  { st with colTags := tags, objs := [], colTagsShared := true }

/-- Go `s_ObjCache.resetDBTypeTags`: `_colTypeTags = tags` makes `_colTypeTags` the slice
of the caller, not a copy of it. -/
def s_ObjCache.resetDBTypeTags (st : State) (tags : List String) : State :=
  { st with colTypeTags := tags, objs := [], colTypeTagsShared := true }

/-- The write `s[i] = tag` of a caller to the slice `s` it passed as `ResetDBTags(s...)`:
`_colTags` is that slice, so its element `i` changes with it; no function of the package
runs and the cache stays as it is. The slice the package starts with cannot be written
by a caller, and a write past the length of the slice does not reach `_colTags`. -/
def writeColTags (st : State) (i : Nat) (tag : String) : State :=
  if st.colTagsShared then { st with colTags := st.colTags.set i tag } else st

/-- The write `s[i] = tag` of a caller to the slice `s` it passed as
`ResetDBTypeTags(s...)`: `_colTypeTags` is that slice. -/
def writeColTypeTags (st : State) (i : Nat) (tag : String) : State :=
  if st.colTypeTagsShared then { st with colTypeTags := st.colTypeTags.set i tag } else st

/-- Go `ClearObjectCache`. -/
def ClearObjectCache (st : State) : State :=
  s_ObjCache.clear st

/-- Go `ResetDBTags`. -/
def ResetDBTags (st : State) (tags : List String) : State :=
  s_ObjCache.resetDBTags st tags

/-- Go `ResetDBTypeTags`. -/
def ResetDBTypeTags (st : State) (tags : List String) : State :=
  s_ObjCache.resetDBTypeTags st tags

/-- The get-then-add step of `dbkeyMapValues`:
`objInfo := _objcache.get(tobj); if objInfo == nil { objInfo = _objcache.add(tobj) }`. -/
def getOrAdd (st : State) (tobj : GoType) : s_ObjInfo × State :=
  match s_ObjCache.get st tobj with
  | some objInfo => (objInfo, st)
  | none => s_ObjCache.add st tobj

/-- Go `dbkeyMapValues`: the result and the state after the call. -/
def dbkeyMapValues (rng : MapRange) (mem : Mem) (st : State) (obj : Obj) (members : String)
    (ptr : Bool) : Except Err (GoMap Iface) × State :=
  match obj with
  | Obj.nil => (Except.error Err.nilType, st)
  | Obj.typed t p =>
    match t with
    | GoType.ptr tobj =>
      if tobj.Kind ≠ Kind.Struct then (Except.error Err.notStruct, st)
      else if tobj.Name = "" then (Except.error Err.anonymous, st)
      else
        match p with
        | none => (Except.error Err.nilPointer, st)
        | some addr =>
          let members := TrimSpace members
          let members := if members = "*" then String.mk (members.data.drop 1) else members
          let all := decide (members = "")
          let mnames := if !all then Split members ',' else []
          let r := getOrAdd st tobj
          if ptr then (r.1.dbkeyMapPMembers rng tobj addr mnames, r.2)
          else (r.1.dbkeyMapMembers rng mem tobj addr mnames, r.2)
    | _ => (Except.error Err.notPointer, st)

/-! ## The column-type extractor -/

/-- The two inner loops of `dbkeyTypes`, `for _, tag := range tags` started with the
variable equal to `""`: the value of the variable after the loop. -/
def dbkeyTypesTag (tag : StructTag) : List String → String
  | [] => ""
  | t :: tags =>
    let td := tag.Get t
    if td ≠ "" then td else dbkeyTypesTag tag tags

/-- The outer loop of `dbkeyTypes` over the fields not yet visited. -/
def dbkeyTypesLoop (st : State) : List (StructField GoType) → List (String × String) →
    List (String × String)
  | [], keyTypes => keyTypes
  | field :: rest, keyTypes =>
    let td := dbkeyTypesTag field.Tag st.colTypeTags
    if td = "" then dbkeyTypesLoop st rest keyTypes
    else
      let key := dbkeyTypesTag field.Tag st.colTags
      let key := if key = "" then field.Name else key
      dbkeyTypesLoop st rest (keyTypes ++ [(key, td)])

/-- Go `dbkeyTypes`, a pair `[2]string{key, td}` being `(key, td)`. -/
def dbkeyTypes (st : State) (obj : Obj) : Except Err (List (String × String)) :=
  match obj with
  | Obj.nil => Except.error Err.typesNilType
  | Obj.typed t _ =>
    let tobj := match t with
      | GoType.ptr elem => elem
      | _ => t
    if tobj.Kind ≠ Kind.Struct then Except.error Err.typesNotStruct
    else Except.ok (dbkeyTypesLoop st tobj.fields [])

/-! ## Notions the properties are stated with -/

/-- The first non-empty value among the values a field has under the tags `tags`, taken
in list order; `none` when every value is empty. -/
def firstNonEmpty (tag : StructTag) (tags : List String) : Option String :=
  (tags.map tag.Get).find? (fun v => !decide (v = ""))

/-- The common shape of the loops `for _, info := range this` of `dbkeyMapMembers` and
`dbkeyMapPMembers`, `val` being what is stored for a descriptor. -/
def collectAll (val : s_ObjMember → Iface) : List (String × s_ObjMember) → GoMap Iface → GoMap Iface
  | [], vs => vs
  | (_, info) :: rest, vs => collectAll val rest (vs.set info.dbkey (val info))

/-- The common shape of the loops `for _, mname := range mnames` of `dbkeyMapMembers` and
`dbkeyMapPMembers`. -/
def collectSome (this : s_ObjInfo) (val : s_ObjMember → Iface) (tobj : GoType) :
    List String → GoMap Iface → Except Err (GoMap Iface)
  | [], vs => Except.ok vs
  | mname :: rest, vs =>
    match this.get (TrimSpace mname) with
    | none => Except.error (Err.notMember (TrimSpace mname) tobj)
    | some info => collectSome this val tobj rest (vs.set info.dbkey (val info))

/-- The kinds of error of the specification. -/
inductive ErrKind where
  | InvalidInput
  | InvalidShape
  | UnknownField
  deriving DecidableEq, Repr

/-- The kind the specification gives to each error of the code: `InvalidInput` for a nil
or untyped argument, an argument that is not a pointer and a nil pointer; `InvalidShape`
for a target that is not a struct or is an anonymous struct; `UnknownField` for a name
that is not in the descriptor table. -/
def Err.kind : Err → ErrKind
  | Err.nilType => ErrKind.InvalidInput
  | Err.notPointer => ErrKind.InvalidInput
  | Err.notStruct => ErrKind.InvalidShape
  | Err.anonymous => ErrKind.InvalidShape
  | Err.nilPointer => ErrKind.InvalidInput
  | Err.notMember _ _ => ErrKind.UnknownField
  | Err.typesNilType => ErrKind.InvalidInput
  | Err.typesNotStruct => ErrKind.InvalidShape

/-- The states the package can be in when the pointers a program passes to
`dbkeyMapValues` point to types of `U`: the state at initialisation followed by calls of
`dbkeyMapValues`, `ClearObjectCache`, `ResetDBTags` and `ResetDBTypeTags` (`dbkeyTypes`
leaves the state as it is) and, when `writes` is true, by writes of the caller to the
elements of a slice it passed to `ResetDBTags` or `ResetDBTypeTags`. -/
inductive ReachedBy (U : GoType → Prop) (writes : Bool) : State → Prop where
  | init : ReachedBy U writes State.init
  | mapValues (rng : MapRange) (mem : Mem) (st : State) (obj : Obj) (members : String)
      (ptr : Bool) : ReachedBy U writes st →
      (∀ tobj p, obj = Obj.typed (GoType.ptr tobj) p → U tobj) →
      ReachedBy U writes (dbkeyMapValues rng mem st obj members ptr).2
  | clear (st : State) : ReachedBy U writes st → ReachedBy U writes (ClearObjectCache st)
  | resetTags (st : State) (tags : List String) :
      ReachedBy U writes st → ReachedBy U writes (ResetDBTags st tags)
  | resetTypeTags (st : State) (tags : List String) :
      ReachedBy U writes st → ReachedBy U writes (ResetDBTypeTags st tags)
  | writeTags (st : State) (i : Nat) (tag : String) :
      writes = true → ReachedBy U writes st → ReachedBy U writes (writeColTags st i tag)
  | writeTypeTags (st : State) (i : Nat) (tag : String) :
      writes = true → ReachedBy U writes st → ReachedBy U writes (writeColTypeTags st i tag)

/-- The states the package can be in: any types, and the writes of the caller to the
slices it passed. -/
def Reachable (st : State) : Prop :=
  ReachedBy (fun _ => True) true st

/-- What the proofs use of a field name being a Go identifier: it is not empty and holds
no white space and no comma. -/
def isFieldName (s : String) : Bool :=
  !s.data.isEmpty && s.data.all (fun c => !isSpace c && !decide (c = ','))

/-- The order of `range` that visits a table as it is stored, for the examples. -/
def exampleRange : MapRange :=
  { order := fun m => m, perm := fun m => List.Perm.refl m }

/-- A memory, for the examples. -/
def exampleMem : Mem :=
  fun a => 10 * a

/-- A basic type, for the examples. -/
def exampleInt : GoType :=
  GoType.other OtherKind.Int "" "int" "int"

/-- A basic type, for the examples. -/
def exampleString : GoType :=
  GoType.other OtherKind.String "" "string" "string"

/-- The fields of the example
`type User struct { Name string "db:\"user_name\""; Password string "db:\"-\""; Age int }`. -/
def exampleUserFields : List (StructField GoType) :=
  [ { Name := "Name", Tag := [("db", "user_name")], Typ := exampleString, Offset := 0 },
    { Name := "Password", Tag := [("db", "-")], Typ := exampleString, Offset := 16 },
    { Name := "Age", Tag := [], Typ := exampleInt, Offset := 32 } ]

/-- The example type `User` of package `app/model`. -/
def exampleUser : GoType :=
  GoType.struct "app/model" "User" "model.User" exampleUserFields

/-- The example `type Twin struct { A int "db:\"x\""; B int "db:\"x\"" }`: two fields
with one storage key. -/
def exampleTwin : GoType :=
  GoType.struct "app/model" "Twin" "model.Twin"
    [ { Name := "A", Tag := [("db", "x")], Typ := exampleInt, Offset := 0 },
      { Name := "B", Tag := [("db", "x")], Typ := exampleInt, Offset := 8 } ]

/-- The example `type Account struct { Secret string "db:\"-\" dbtd:\"varchar(32)\"" }`:
a field excluded from the mapping that declares a storage type. -/
def exampleAccount : GoType :=
  GoType.struct "app/model" "Account" "model.Account"
    [ { Name := "Secret", Tag := [("db", "-"), ("dbtd", "varchar(32)")], Typ := exampleString,
        Offset := 0 } ]

/-- The example `type Item struct { Title string "db:\"title\" json:\"name\"" }`: the key
tags `db` and `json` give different storage keys. -/
def exampleItem : GoType :=
  GoType.struct "app/model" "Item" "model.Item"
    [ { Name := "Title", Tag := [("db", "title"), ("json", "name")], Typ := exampleString,
        Offset := 0 } ]

/-- What a stored value designates: for a pointer, the value of the pointer's type held
in memory at the pointer's address; a value designates itself. -/
def Iface.load (mem : Mem) : Iface → Iface
  | Iface.pointer t addr => Iface.value t (mem addr)
  | Iface.value t contents => Iface.value t contents

/-- The example type `T` that a function of package `main` declares in its body:
`type T struct { A int }`. -/
def exampleLocalA : GoType :=
  GoType.struct "main" "T" "main.T"
    [ { Name := "A", Tag := [], Typ := exampleInt, Offset := 0 } ]

/-- The example type `T` that another function of package `main` declares in its body:
`type T struct { Pad string; B int }`. For `reflect` it has the package path, the name and
the `String()` of the type `T` of the first function. -/
def exampleLocalB : GoType :=
  GoType.struct "main" "T" "main.T"
    [ { Name := "Pad", Tag := [], Typ := exampleString, Offset := 0 },
      { Name := "B", Tag := [], Typ := exampleInt, Offset := 16 } ]

/-! ## The collection functions of `common/fscollection` (`collection.go`)

A slice is the list of its elements. A map with comparable keys is the association list
`KMap`, whose `range` order is the parameter `KRange`; ranging over a nil map is ranging
over an empty one, so the functions that only read a map take its contents. Where the
identity of a map matters (`MapCopy`, `MapUpdate`) a map value is `none` for nil or the
address of a map object in the heap `MapHeap`. The operator `==` on the element type is
equality. -/

/-- The contents of a Go `map[K]V`. -/
abbrev KMap (K V : Type) := List (K × V)

/-- The lookup `v, ok := m[k]`: `none` when `ok` is false. -/
def KMap.get {K V : Type} [DecidableEq K] : KMap K V → K → Option V
  | [], _ => none
  | (k', v) :: m, k => if k' = k then some v else KMap.get m k

/-- The map without its entry for `k`, if it has one. -/
def KMap.erase {K V : Type} [DecidableEq K] : KMap K V → K → KMap K V
  | [], _ => []
  | (k', v) :: m, k => if k' = k then KMap.erase m k else (k', v) :: KMap.erase m k

/-- The assignment `m[k] = v`: an entry already stored under `k` is replaced. -/
def KMap.set {K V : Type} [DecidableEq K] (m : KMap K V) (k : K) (v : V) : KMap K V :=
  (k, v) :: m.erase k

/-- The keys of a map. -/
def KMap.keys {K V : Type} (m : KMap K V) : List K :=
  m.map Prod.fst

/-- The order in which `range` visits a `map[K]V`: some rearrangement of its entries,
chosen by the runtime. -/
structure KRange (K V : Type) where
  order : KMap K V → KMap K V
  perm : ∀ m, (order m).Perm m

/-- Go `slices.Contains` of the standard library. -/
def Contains {T : Type} [DecidableEq T] : List T → T → Bool
  | [], _ => false
  | item :: rest, v => if item = v then true else Contains rest v

/-- Go `SliceHas`. -/
def SliceHas {T : Type} [DecidableEq T] : List T → T → Bool
  | [], _ => false
  | item :: rest, value => if item = value then true else SliceHas rest value

/-- The loop of `SliceIndexOf` over the elements from index `index` on. -/
def SliceIndexOfFrom {T : Type} [DecidableEq T] (value : T) : List T → Nat → Int
  | [], _ => -1
  | item :: rest, index =>
    if item = value then (index : Int) else SliceIndexOfFrom value rest (index + 1)

/-- Go `SliceIndexOf`. -/
def SliceIndexOf {T : Type} [DecidableEq T] (items : List T) (value : T) : Int :=
  SliceIndexOfFrom value items 0

/-- The loop of `SliceIntersection` over the elements of `items1` not yet visited. -/
def SliceIntersectionLoop {T : Type} [DecidableEq T] (items2 : List T) : List T → List T → List T
  | [], items => items
  | item :: rest, items =>
    if Contains items2 item then SliceIntersectionLoop items2 rest (items ++ [item])
    else SliceIntersectionLoop items2 rest items

/-- Go `SliceIntersection`. -/
def SliceIntersection {T : Type} [DecidableEq T] (items1 items2 : List T) : List T :=
  SliceIntersectionLoop items2 items1 []

/-- The loop of `MapKeysToSlice` over the entries not yet visited. -/
def MapKeysToSliceLoop {K V : Type} : List (K × V) → List K → List K
  | [], keys => keys
  | (k, _) :: rest, keys => MapKeysToSliceLoop rest (keys ++ [k])

/-- Go `MapKeysToSlice`. -/
def MapKeysToSlice {K V : Type} (rng : KRange K V) (m : KMap K V) : List K :=
  MapKeysToSliceLoop (rng.order m) []

/-- The loop of `SliceUnique`, the value `nil` of type `any` being `()`. -/
def SliceUniqueLoop {T : Type} [DecidableEq T] : List T → KMap T Unit → KMap T Unit
  | [], m => m
  | item :: rest, m => SliceUniqueLoop rest (m.set item ())

/-- Go `SliceUnique`. -/
def SliceUnique {T : Type} [DecidableEq T] (rng : KRange T Unit) (items : List T) : List T :=
  MapKeysToSlice rng (SliceUniqueLoop items [])

/-- The loop of `MapSwapKeyValue` over the entries not yet visited. -/
def MapSwapKeyValueLoop {K V : Type} [DecidableEq V] : List (K × V) → KMap V K → KMap V K
  | [], vk => vk
  | (k, v) :: rest, vk => MapSwapKeyValueLoop rest (vk.set v k)

/-- Go `MapSwapKeyValue`. -/
def MapSwapKeyValue {K V : Type} [DecidableEq V] (rng : KRange K V) (m : KMap K V) : KMap V K :=
  MapSwapKeyValueLoop (rng.order m) []

/-- The map objects of the heap, by address. -/
abbrev MapHeap (K V : Type) := List (KMap K V)

/-- The contents of the map object at an address. -/
def MapHeap.load {K V : Type} (h : MapHeap K V) (addr : Nat) : KMap K V :=
  h.getD addr []

/-- The loop `for k, v := range m` of `MapCopy` and of `MapUpdate` over the entries not
yet visited, `dst` being the contents of the map that is assigned to. -/
def MapAssignLoop {K V : Type} [DecidableEq K] : List (K × V) → KMap K V → KMap K V
  | [], dst => dst
  | (k, v) :: rest, dst => MapAssignLoop rest (dst.set k v)

/-- Go `MapCopy`: the map value returned and the heap after the call. The map `newMap` is
allocated at the first free address and filled; the value returned is `m`. -/
def MapCopy {K V : Type} [DecidableEq K] (rng : KRange K V) (h : MapHeap K V) (m : Option Nat) :
    Option Nat × MapHeap K V :=
  match m with
  | none => (none, h)
  | some addr =>
    let newMap := MapAssignLoop (rng.order (h.load addr)) []
    (some addr, h ++ [newMap])

/-- Go `MapUpdate`: the heap after the call, `none` when the call panics (an assignment to
an entry of a nil map). -/
def MapUpdate {K V : Type} [DecidableEq K] (rng : KRange K V) (h : MapHeap K V)
    (m1 m2 : Option Nat) : Option (MapHeap K V) :=
  let entries := match m2 with
    | none => []
    | some addr2 => rng.order (h.load addr2)
  match entries, m1 with
  | [], _ => some h
  | _ :: _, none => none
  | e :: rest, some addr1 => some (h.set addr1 (MapAssignLoop (e :: rest) (h.load addr1)))

/-- The order of `range` that visits a map as it is stored, for the examples. -/
def exampleKRange (K V : Type) : KRange K V :=
  { order := fun m => m, perm := fun m => List.Perm.refl m }

/-- A heap with the maps `{1: 10}` at address 0 and `{2: 20}` at address 1, for the
examples. -/
def exampleHeap : MapHeap Nat Nat :=
  [[(1, 10)], [(2, 20)]]

/-- The state after `s := []string{"db"}; ResetDBTags(s...)`, a call of `dbkeyMapValues`
on a pointer to an `Item`, and the write `s[0] = "json"`. -/
def exampleStale : State :=
  writeColTags (dbkeyMapValues exampleRange exampleMem (ResetDBTags State.init ["db"])
    (Obj.typed (GoType.ptr exampleItem) (some 1000)) "" false).2 0 "json"

/-! ## Lemmas on maps -/

theorem GoMap.get_erase_ne {V : Type} (m : GoMap V) (k k' : String) (h : k' ≠ k) :
    (m.erase k).get k' = m.get k' := by
  induction m with
  | nil => rfl
  | cons e m ih =>
    obtain ⟨a, b⟩ := e
    by_cases hak : a = k
    · subst hak
      have : ¬ a = k' := fun h' => h h'.symm
      simp [GoMap.erase, GoMap.get, this, ih]
    · by_cases hak' : a = k'
      · subst hak'
        simp [GoMap.erase, GoMap.get, hak]
      · simp [GoMap.erase, GoMap.get, hak, hak', ih]

theorem GoMap.get_set_self {V : Type} (m : GoMap V) (k : String) (v : V) :
    (m.set k v).get k = some v := by
  simp [GoMap.set, GoMap.get]

theorem GoMap.get_set_ne {V : Type} (m : GoMap V) (k k' : String) (v : V) (h : k' ≠ k) :
    (m.set k v).get k' = m.get k' := by
  have h' : ¬ k = k' := fun e => h e.symm
  simp only [GoMap.set, GoMap.get, h', if_false]
  exact GoMap.get_erase_ne m k k' h

theorem GoMap.mem_erase {V : Type} (m : GoMap V) (k : String) (e : String × V) :
    e ∈ m.erase k ↔ e ∈ m ∧ e.1 ≠ k := by
  induction m with
  | nil => simp [GoMap.erase]
  | cons x m ih =>
    obtain ⟨a, b⟩ := x
    by_cases hak : a = k
    · simp only [GoMap.erase, hak, if_true, ih, List.mem_cons]
      constructor
      · rintro ⟨h1, h2⟩; exact ⟨Or.inr h1, h2⟩
      · rintro ⟨h1 | h1, h2⟩
        · subst h1; exact absurd rfl h2
        · exact ⟨h1, h2⟩
    · simp only [GoMap.erase, hak, if_false, ih, List.mem_cons]
      constructor
      · rintro (h1 | ⟨h1, h2⟩)
        · subst h1; exact ⟨Or.inl rfl, hak⟩
        · exact ⟨Or.inr h1, h2⟩
      · rintro ⟨h1 | h1, h2⟩
        · exact Or.inl h1
        · exact Or.inr ⟨h1, h2⟩

theorem GoMap.mem_keys_iff {V : Type} (m : GoMap V) (k : String) :
    k ∈ m.keys ↔ ∃ v, (k, v) ∈ m := by
  simp [GoMap.keys]

theorem GoMap.mem_keys_set {V : Type} (m : GoMap V) (k k' : String) (v : V) :
    k' ∈ (m.set k v).keys ↔ k' = k ∨ k' ∈ m.keys := by
  simp only [GoMap.mem_keys_iff, GoMap.set, List.mem_cons, GoMap.mem_erase, Prod.mk.injEq]
  constructor
  · rintro ⟨w, (⟨h, _⟩ | ⟨h, _⟩)⟩
    · exact Or.inl h
    · exact Or.inr ⟨w, h⟩
  · rintro (h | ⟨w, h⟩)
    · exact ⟨v, Or.inl ⟨h, rfl⟩⟩
    · by_cases hk : k' = k
      · exact ⟨v, Or.inl ⟨hk, rfl⟩⟩
      · exact ⟨w, Or.inr ⟨h, hk⟩⟩

theorem GoMap.get_eq_none_iff {V : Type} (m : GoMap V) (k : String) :
    m.get k = none ↔ k ∉ m.keys := by
  induction m with
  | nil => simp [GoMap.get, GoMap.keys]
  | cons e m ih =>
    obtain ⟨a, b⟩ := e
    by_cases h : a = k
    · simp [GoMap.get, GoMap.keys, h]
    · have h' : ¬ k = a := fun e => h e.symm
      simp only [GoMap.get, h, if_false, ih]
      simp [GoMap.keys, h']

theorem GoMap.mem_of_get {V : Type} (m : GoMap V) (k : String) (v : V) (h : m.get k = some v) :
    (k, v) ∈ m := by
  induction m with
  | nil => simp [GoMap.get] at h
  | cons e m ih =>
    obtain ⟨a, b⟩ := e
    by_cases hak : a = k
    · simp [GoMap.get, hak] at h
      simp [hak, h]
    · simp only [GoMap.get, hak, if_false] at h
      exact List.mem_cons_of_mem _ (ih h)

theorem GoMap.get_of_mem {V : Type} (m : GoMap V) (hd : m.keys.Nodup) (k : String) (v : V)
    (h : (k, v) ∈ m) : m.get k = some v := by
  induction m with
  | nil => simp at h
  | cons e m ih =>
    obtain ⟨a, b⟩ := e
    simp only [GoMap.keys, List.map_cons, List.nodup_cons, List.mem_map, not_exists, not_and] at hd
    rcases List.mem_cons.1 h with h | h
    · cases h
      simp [GoMap.get]
    · have hak : ¬ a = k := fun e => hd.1 (k, v) h e.symm
      simp only [GoMap.get, hak, if_false]
      exact ih hd.2 h

theorem GoMap.erase_sublist {V : Type} (m : GoMap V) (k : String) :
    (m.erase k).Sublist m := by
  induction m with
  | nil => exact List.Sublist.refl _
  | cons e m ih =>
    obtain ⟨a, b⟩ := e
    by_cases hak : a = k
    · simp only [GoMap.erase, hak, if_true]
      exact List.Sublist.cons _ ih
    · simp only [GoMap.erase, hak, if_false]
      exact List.Sublist.cons₂ _ ih

theorem GoMap.keys_set_nodup {V : Type} (m : GoMap V) (hd : m.keys.Nodup) (k : String) (v : V) :
    (m.set k v).keys.Nodup := by
  simp only [GoMap.set, GoMap.keys, List.map_cons, List.nodup_cons]
  refine ⟨?_, hd.sublist (List.Sublist.map _ (GoMap.erase_sublist m k))⟩
  intro h
  obtain ⟨e, he, hk⟩ := List.mem_map.1 h
  exact ((GoMap.mem_erase m k e).1 he).2 hk

theorem GoMap.erase_of_not_mem {V : Type} (m : GoMap V) (k : String) (h : k ∉ m.keys) :
    m.erase k = m := by
  induction m with
  | nil => rfl
  | cons e m ih =>
    obtain ⟨a, b⟩ := e
    simp only [GoMap.keys, List.map_cons, List.mem_cons, not_or] at h
    have hak : ¬ a = k := fun e => h.1 e.symm
    simp only [GoMap.erase, hak, if_false]
    rw [ih h.2]

theorem GoMap.length_set_of_not_mem {V : Type} (m : GoMap V) (k : String) (v : V)
    (h : k ∉ m.keys) : (m.set k v).length = m.length + 1 := by
  simp [GoMap.set, GoMap.erase_of_not_mem m k h]

/-! ## Lemmas on the descriptor builder -/

theorem firstNonEmpty_nil (tag : StructTag) : firstNonEmpty tag [] = none := rfl

theorem firstNonEmpty_cons (tag : StructTag) (t : String) (tags : List String) :
    firstNonEmpty tag (t :: tags) =
      if tag.Get t = "" then firstNonEmpty tag tags else some (tag.Get t) := by
  by_cases h : tag.Get t = "" <;> simp [firstNonEmpty, List.find?, h]

theorem firstNonEmpty_ne_empty (tag : StructTag) (tags : List String) (v : String)
    (h : firstNonEmpty tag tags = some v) : v ≠ "" := by
  have := List.find?_some h
  simpa using this

theorem newObjInfoKey_eq (tag : StructTag) (tags : List String) :
    newObjInfoKey tag tags =
      match firstNonEmpty tag tags with
      | none => some ""
      | some v => if v = "-" then none else some v := by
  induction tags with
  | nil => rfl
  | cons t tags ih =>
    rw [firstNonEmpty_cons]
    by_cases h1 : tag.Get t = "-"
    · have h2 : ¬ tag.Get t = "" := by rw [h1]; decide
      simp [newObjInfoKey, h1]
    · by_cases h2 : tag.Get t = ""
      · simp [newObjInfoKey, h2, ih]
      · simp [newObjInfoKey, h1, h2]

theorem newObjInfoKey_eq_none_iff (tag : StructTag) (tags : List String) :
    newObjInfoKey tag tags = none ↔ firstNonEmpty tag tags = some "-" := by
  rw [newObjInfoKey_eq]
  cases h : firstNonEmpty tag tags with
  | none => simp
  | some v => by_cases hv : v = "-" <;> simp [hv]

theorem newObjInfoKey_dbkey (tag : StructTag) (tags : List String) (k name : String)
    (h : newObjInfoKey tag tags = some k) :
    (if k = "" then name else k) = (firstNonEmpty tag tags).getD name := by
  rw [newObjInfoKey_eq] at h
  cases hf : firstNonEmpty tag tags with
  | none =>
    rw [hf] at h
    simp only [Option.some.injEq] at h
    subst h
    simp
  | some v =>
    rw [hf] at h
    have hv := firstNonEmpty_ne_empty tag tags v hf
    by_cases hd : v = "-"
    · simp [hd] at h
    · simp only [hd, if_false, Option.some.injEq] at h
      subst h
      simp [hv]

theorem newObjInfoLoop_mem_keys (colTags : List String) (fs : List (StructField GoType))
    (members : s_ObjInfo) (n : String) :
    n ∈ (newObjInfoLoop colTags fs members).keys ↔
      (∃ f ∈ fs, f.Name = n ∧ newObjInfoKey f.Tag colTags ≠ none) ∨ n ∈ members.keys := by
  induction fs generalizing members with
  | nil => simp [newObjInfoLoop]
  | cons f fs ih =>
    cases hk : newObjInfoKey f.Tag colTags with
    | none =>
      simp only [newObjInfoLoop, hk, ih, List.mem_cons]
      constructor
      · rintro (⟨g, hg, h1, h2⟩ | h)
        · exact Or.inl ⟨g, Or.inr hg, h1, h2⟩
        · exact Or.inr h
      · rintro (⟨g, hg | hg, h1, h2⟩ | h)
        · subst hg; exact absurd hk h2
        · exact Or.inl ⟨g, hg, h1, h2⟩
        · exact Or.inr h
    | some k =>
      simp only [newObjInfoLoop, hk, ih, List.mem_cons, GoMap.mem_keys_set]
      constructor
      · rintro (⟨g, hg, h1, h2⟩ | h | h)
        · exact Or.inl ⟨g, Or.inr hg, h1, h2⟩
        · exact Or.inl ⟨f, Or.inl rfl, h.symm, by simp [hk]⟩
        · exact Or.inr h
      · rintro (⟨g, hg | hg, h1, h2⟩ | h)
        · subst hg; exact Or.inr (Or.inl h1.symm)
        · exact Or.inl ⟨g, hg, h1, h2⟩
        · exact Or.inr (Or.inr h)

theorem newObjInfoLoop_keys_nodup (colTags : List String) (fs : List (StructField GoType))
    (members : s_ObjInfo) (hd : members.keys.Nodup) :
    (newObjInfoLoop colTags fs members).keys.Nodup := by
  induction fs generalizing members with
  | nil => simpa [newObjInfoLoop] using hd
  | cons f fs ih =>
    cases hk : newObjInfoKey f.Tag colTags with
    | none => simpa only [newObjInfoLoop, hk] using ih members hd
    | some k =>
      simp only [newObjInfoLoop, hk]
      exact ih _ (GoMap.keys_set_nodup members hd _ _)

theorem newObjInfoLoop_get (colTags : List String) (fs : List (StructField GoType))
    (members : s_ObjInfo) (n : String) (info : s_ObjMember)
    (h : (newObjInfoLoop colTags fs members).get n = some info) :
    (∃ f ∈ fs, f.Name = n ∧ ∃ k, newObjInfoKey f.Tag colTags = some k ∧
        info = { dbkey := if k = "" then f.Name else k, vtype := f.Typ, offset := f.Offset }) ∨
      members.get n = some info := by
  induction fs generalizing members with
  | nil => exact Or.inr (by simpa [newObjInfoLoop] using h)
  | cons f fs ih =>
    cases hk : newObjInfoKey f.Tag colTags with
    | none =>
      simp only [newObjInfoLoop, hk] at h
      rcases ih members h with ⟨g, hg, h1, h2⟩ | h'
      · exact Or.inl ⟨g, List.mem_cons_of_mem _ hg, h1, h2⟩
      · exact Or.inr h'
    | some k =>
      simp only [newObjInfoLoop, hk] at h
      rcases ih _ h with ⟨g, hg, h1, h2⟩ | h'
      · exact Or.inl ⟨g, List.mem_cons_of_mem _ hg, h1, h2⟩
      · by_cases hn : n = f.Name
        · subst hn
          rw [GoMap.get_set_self] at h'
          exact Or.inl ⟨f, List.mem_cons_self _ _, rfl, k, hk, (Option.some.inj h').symm⟩
        · rw [GoMap.get_set_ne _ _ _ _ hn] at h'
          exact Or.inr h'

theorem newObjInfoLoop_get_of_not_mem (colTags : List String) (fs : List (StructField GoType))
    (members : s_ObjInfo) (n : String) (hn : ∀ f ∈ fs, f.Name ≠ n) :
    (newObjInfoLoop colTags fs members).get n = members.get n := by
  induction fs generalizing members with
  | nil => rfl
  | cons f fs ih =>
    have hf : n ≠ f.Name := fun e => hn f (List.mem_cons_self _ _) e.symm
    have hrest : ∀ g ∈ fs, g.Name ≠ n := fun g hg => hn g (List.mem_cons_of_mem _ hg)
    cases hk : newObjInfoKey f.Tag colTags with
    | none => simp only [newObjInfoLoop, hk]; exact ih members hrest
    | some k =>
      simp only [newObjInfoLoop, hk]
      rw [ih _ hrest, GoMap.get_set_ne _ _ _ _ hf]

theorem newObjInfoLoop_get_field (colTags : List String) (fs : List (StructField GoType))
    (members : s_ObjInfo) (hd : (fs.map (fun f => f.Name)).Nodup)
    (f : StructField GoType) (hf : f ∈ fs) (k : String)
    (hk : newObjInfoKey f.Tag colTags = some k) :
    (newObjInfoLoop colTags fs members).get f.Name =
      some { dbkey := if k = "" then f.Name else k, vtype := f.Typ, offset := f.Offset } := by
  induction fs generalizing members with
  | nil => simp at hf
  | cons g fs ih =>
    simp only [List.map_cons, List.nodup_cons, List.mem_map, not_exists, not_and] at hd
    rcases List.mem_cons.1 hf with hfg | hfg
    · subst hfg
      simp only [newObjInfoLoop, hk]
      rw [newObjInfoLoop_get_of_not_mem colTags fs _ f.Name (fun g hg => hd.1 g hg),
        GoMap.get_set_self]
    · cases hg : newObjInfoKey g.Tag colTags with
      | none => simp only [newObjInfoLoop, hg]; exact ih members hd.2 hfg
      | some k' => simp only [newObjInfoLoop, hg]; exact ih _ hd.2 hfg

theorem newObjInfoLoop_length (colTags : List String) (fs : List (StructField GoType))
    (members : s_ObjInfo) (hd : (fs.map (fun f => f.Name)).Nodup)
    (hm : ∀ f ∈ fs, f.Name ∉ members.keys) :
    (newObjInfoLoop colTags fs members).length =
      members.length + (fs.filter (fun f => (newObjInfoKey f.Tag colTags).isSome)).length := by
  induction fs generalizing members with
  | nil => simp [newObjInfoLoop]
  | cons g fs ih =>
    simp only [List.map_cons, List.nodup_cons, List.mem_map, not_exists, not_and] at hd
    have hrest : ∀ f ∈ fs, f.Name ∉ members.keys := fun f hf => hm f (List.mem_cons_of_mem _ hf)
    cases hg : newObjInfoKey g.Tag colTags with
    | none =>
      simp only [newObjInfoLoop, hg, List.filter_cons, Option.isSome_none]
      simpa using ih members hd.2 hrest
    | some k =>
      simp only [newObjInfoLoop, hg, List.filter_cons, Option.isSome_some, if_true,
        List.length_cons]
      rw [ih _ hd.2, GoMap.length_set_of_not_mem _ _ _ (hm g (List.mem_cons_self _ _))]
      · omega
      · intro f hf hmem
        rcases (GoMap.mem_keys_set _ _ _ _).1 hmem with h | h
        · exact hd.1 f hf h
        · exact hrest f hf h


theorem firstNonEmpty_no_tag (tags : List String) : firstNonEmpty [] tags = none := by
  induction tags with
  | nil => rfl
  | cons t tags ih => rw [firstNonEmpty_cons]; simp [StructTag.Get, ih]

theorem firstNonEmpty_single (t v : String) (tags : List String) (ht : t ∈ tags) (hv : v ≠ "") :
    firstNonEmpty [(t, v)] tags = some v := by
  induction tags with
  | nil => simp at ht
  | cons t' tags ih =>
    rw [firstNonEmpty_cons]
    by_cases h : t = t'
    · simp [StructTag.Get, h, hv]
    · have ht' : t ∈ tags := by
        rcases List.mem_cons.1 ht with h' | h'
        · exact absurd h' h
        · exact h'
      simp [StructTag.Get, h, ih ht']

/-- C4: for a struct type with pairwise distinct field names and any list of key tags, the
key set of `newObjInfo` is the set of names of the fields that are not excluded, a field
being excluded exactly when the first non-empty value among its key tags is `"-"`; the
table has one entry for each such field; and the struct with `Name` tagged `"user_name"`,
`Password` tagged `"-"` and untagged `Age` yields exactly the two entries with storage
keys `"user_name"` and `"Age"`. -/
theorem newObjInfo_keys (colTags : List String) (pkgPath name str : String)
    (fields : List (StructField GoType)) (hd : (fields.map (fun f => f.Name)).Nodup) :
    (∀ n, n ∈ (newObjInfo colTags (GoType.struct pkgPath name str fields)).keys ↔
        ∃ f ∈ fields, f.Name = n ∧ firstNonEmpty f.Tag colTags ≠ some "-") ∧
    (newObjInfo colTags (GoType.struct pkgPath name str fields)).keys.Nodup ∧
    (newObjInfo colTags (GoType.struct pkgPath name str fields)).length =
      (fields.filter (fun f => !decide (firstNonEmpty f.Tag colTags = some "-"))).length ∧
    (∀ t ∈ colTags, ∀ (tn tp ta : GoType) (o1 o2 o3 : Nat),
      newObjInfo colTags (GoType.struct pkgPath name str
        [ { Name := "Name", Tag := [(t, "user_name")], Typ := tn, Offset := o1 },
          { Name := "Password", Tag := [(t, "-")], Typ := tp, Offset := o2 },
          { Name := "Age", Tag := [], Typ := ta, Offset := o3 } ]) =
        [ ("Age", { dbkey := "Age", vtype := ta, offset := o3 }),
          ("Name", { dbkey := "user_name", vtype := tn, offset := o1 }) ]) := by
  refine ⟨?_, ?_, ?_, ?_⟩
  · intro n
    simp only [newObjInfo, GoType.fields, newObjInfoLoop_mem_keys, ne_eq,
      newObjInfoKey_eq_none_iff]
    simp [GoMap.keys]
  · exact newObjInfoLoop_keys_nodup colTags fields [] (by simp [GoMap.keys])
  · have h := newObjInfoLoop_length colTags fields [] hd (by simp [GoMap.keys])
    simp only [newObjInfo, GoType.fields, h, List.length_nil, Nat.zero_add]
    congr 1
    apply List.filter_congr
    intro f _
    cases hk : newObjInfoKey f.Tag colTags with
    | none => simp [(newObjInfoKey_eq_none_iff _ _).1 hk]
    | some k =>
      have : ¬ firstNonEmpty f.Tag colTags = some "-" := fun h' => by
        rw [(newObjInfoKey_eq_none_iff _ _).2 h'] at hk; cases hk
      simp [this]
  · intro t ht tn tp ta o1 o2 o3
    have h1 : newObjInfoKey [(t, "user_name")] colTags = some "user_name" := by
      rw [newObjInfoKey_eq, firstNonEmpty_single t _ colTags ht (by decide)]
      simp
    have h2 : newObjInfoKey [(t, "-")] colTags = none := by
      rw [newObjInfoKey_eq, firstNonEmpty_single t _ colTags ht (by decide)]
      simp
    have h3 : newObjInfoKey [] colTags = some "" := by
      rw [newObjInfoKey_eq, firstNonEmpty_no_tag]
    simp [newObjInfo, GoType.fields, newObjInfoLoop, h1, h2, h3, GoMap.set, GoMap.erase]

theorem newObjInfo_keys_witness :
    (exampleUserFields.map (fun f => f.Name)).Nodup ∧
    (newObjInfo ["mysql", "db"] exampleUser).length =
      (exampleUserFields.filter
        (fun f => !decide (firstNonEmpty f.Tag ["mysql", "db"] = some "-"))).length :=
  ⟨by decide, (newObjInfo_keys ["mysql", "db"] "app/model" "User" "model.User"
    exampleUserFields (by decide)).2.2.1⟩

/-- C5: every entry of the table of `newObjInfo` comes from a field of that name that is
not excluded, and its storage key is the first non-empty value among the field's key
tags, in list order, or the field's name when there is none (so always the name when no
key tag is recognized); with distinct field names every field that is not excluded has
such an entry; and when no field is named `""` or `"-"`, as in every Go struct, no
storage key is `""` or `"-"`. -/
theorem newObjInfo_dbkey (colTags : List String) (pkgPath name str : String)
    (fields : List (StructField GoType)) :
    (∀ n info, (newObjInfo colTags (GoType.struct pkgPath name str fields)).get n = some info →
      ∃ f ∈ fields, f.Name = n ∧ firstNonEmpty f.Tag colTags ≠ some "-" ∧
        info.dbkey = (firstNonEmpty f.Tag colTags).getD f.Name) ∧
    (∀ n info, (newObjInfo [] (GoType.struct pkgPath name str fields)).get n = some info →
      info.dbkey = n) ∧
    ((fields.map (fun f => f.Name)).Nodup → ∀ f ∈ fields,
      firstNonEmpty f.Tag colTags ≠ some "-" →
      ∃ info, (newObjInfo colTags (GoType.struct pkgPath name str fields)).get f.Name = some info ∧
        info.dbkey = (firstNonEmpty f.Tag colTags).getD f.Name) ∧
    ((∀ f ∈ fields, f.Name ≠ "" ∧ f.Name ≠ "-") →
      ∀ n info, (newObjInfo colTags (GoType.struct pkgPath name str fields)).get n = some info →
        info.dbkey ≠ "" ∧ info.dbkey ≠ "-") := by
  have key : ∀ tags n info,
      (newObjInfo tags (GoType.struct pkgPath name str fields)).get n = some info →
      ∃ f ∈ fields, f.Name = n ∧ firstNonEmpty f.Tag tags ≠ some "-" ∧
        info.dbkey = (firstNonEmpty f.Tag tags).getD f.Name := by
    intro tags n info h
    rcases newObjInfoLoop_get tags fields [] n info h with ⟨f, hf, hn, k, hk, hi⟩ | h'
    · refine ⟨f, hf, hn, ?_, ?_⟩
      · intro hex
        rw [(newObjInfoKey_eq_none_iff _ _).2 hex] at hk
        cases hk
      · rw [hi]
        exact newObjInfoKey_dbkey f.Tag tags k f.Name hk
    · simp [GoMap.get] at h'
  refine ⟨key colTags, ?_, ?_, ?_⟩
  · intro n info h
    obtain ⟨f, _, hn, _, hi⟩ := key [] n info h
    rw [hi, firstNonEmpty_nil, ← hn]
    rfl
  · intro hd f hf hex
    cases hk : newObjInfoKey f.Tag colTags with
    | none => exact absurd ((newObjInfoKey_eq_none_iff _ _).1 hk) hex
    | some k =>
      exact ⟨_, newObjInfoLoop_get_field colTags fields [] hd f hf k hk,
        newObjInfoKey_dbkey f.Tag colTags k f.Name hk⟩
  · intro hname n info h
    obtain ⟨f, hf, _, hex, hi⟩ := key colTags n info h
    rw [hi]
    cases hv : firstNonEmpty f.Tag colTags with
    | none => exact hname f hf
    | some v =>
      refine ⟨firstNonEmpty_ne_empty _ _ v hv, ?_⟩
      intro hv'
      apply hex
      rw [hv]
      exact congrArg some hv'

theorem newObjInfo_dbkey_witness :
    (newObjInfo ["mysql", "db"] exampleUser).get "Name" =
        some { dbkey := "user_name", vtype := exampleString, offset := 0 } ∧
    (∃ f ∈ exampleUserFields, f.Name = "Name" ∧
      firstNonEmpty f.Tag ["mysql", "db"] ≠ some "-" ∧
      "user_name" = (firstNonEmpty f.Tag ["mysql", "db"]).getD f.Name) :=
  ⟨by rfl, (newObjInfo_dbkey ["mysql", "db"] "app/model" "User" "model.User"
    exampleUserFields).1 "Name" { dbkey := "user_name", vtype := exampleString, offset := 0 }
    (by rfl)⟩


/-! ## Lemmas on the accessor -/

theorem dbkeyMapMembersAll_eq (mem : Mem) (addr : Nat) (es : List (String × s_ObjMember))
    (vs : GoMap Iface) :
    dbkeyMapMembersAll mem addr es vs = collectAll (memberValue mem addr) es vs := by
  induction es generalizing vs with
  | nil => rfl
  | cons e es ih => obtain ⟨n, info⟩ := e; simp only [dbkeyMapMembersAll, collectAll, ih]

theorem dbkeyMapPMembersAll_eq (addr : Nat) (es : List (String × s_ObjMember))
    (ps : GoMap Iface) :
    dbkeyMapPMembersAll addr es ps = collectAll (memberPointer addr) es ps := by
  induction es generalizing ps with
  | nil => rfl
  | cons e es ih => obtain ⟨n, info⟩ := e; simp only [dbkeyMapPMembersAll, collectAll, ih]

theorem dbkeyMapMembersSome_eq (this : s_ObjInfo) (mem : Mem) (tobj : GoType) (addr : Nat)
    (mnames : List String) (vs : GoMap Iface) :
    dbkeyMapMembersSome this mem tobj addr mnames vs =
      collectSome this (memberValue mem addr) tobj mnames vs := by
  induction mnames generalizing vs with
  | nil => rfl
  | cons m ms ih =>
    simp only [dbkeyMapMembersSome, collectSome]
    cases this.get (TrimSpace m) with
    | none => rfl
    | some info => exact ih _

theorem dbkeyMapPMembersSome_eq (this : s_ObjInfo) (tobj : GoType) (addr : Nat)
    (mnames : List String) (ps : GoMap Iface) :
    dbkeyMapPMembersSome this tobj addr mnames ps =
      collectSome this (memberPointer addr) tobj mnames ps := by
  induction mnames generalizing ps with
  | nil => rfl
  | cons m ms ih =>
    simp only [dbkeyMapPMembersSome, collectSome]
    cases this.get (TrimSpace m) with
    | none => rfl
    | some info => exact ih _

theorem collectAll_mem_keys (val : s_ObjMember → Iface) (es : List (String × s_ObjMember))
    (vs : GoMap Iface) (k : String) :
    k ∈ (collectAll val es vs).keys ↔ (∃ e ∈ es, e.2.dbkey = k) ∨ k ∈ vs.keys := by
  induction es generalizing vs with
  | nil => simp [collectAll]
  | cons e es ih =>
    obtain ⟨n, info⟩ := e
    simp only [collectAll, ih, GoMap.mem_keys_set, List.mem_cons]
    constructor
    · rintro (⟨e, he, h⟩ | h | h)
      · exact Or.inl ⟨e, Or.inr he, h⟩
      · exact Or.inl ⟨(n, info), Or.inl rfl, h.symm⟩
      · exact Or.inr h
    · rintro (⟨e, he | he, h⟩ | h)
      · subst he; exact Or.inr (Or.inl h.symm)
      · exact Or.inl ⟨e, he, h⟩
      · exact Or.inr (Or.inr h)

theorem collectAll_keys_nodup (val : s_ObjMember → Iface) (es : List (String × s_ObjMember))
    (vs : GoMap Iface) (hd : vs.keys.Nodup) : (collectAll val es vs).keys.Nodup := by
  induction es generalizing vs with
  | nil => exact hd
  | cons e es ih =>
    obtain ⟨n, info⟩ := e
    exact ih _ (GoMap.keys_set_nodup vs hd _ _)

theorem collectAll_get (val : s_ObjMember → Iface) (es : List (String × s_ObjMember))
    (vs : GoMap Iface) (k : String) (v : Iface) (h : (collectAll val es vs).get k = some v) :
    (∃ e ∈ es, e.2.dbkey = k ∧ v = val e.2) ∨ vs.get k = some v := by
  induction es generalizing vs with
  | nil => exact Or.inr h
  | cons e es ih =>
    obtain ⟨n, info⟩ := e
    rcases ih _ h with ⟨e, he, h1, h2⟩ | h'
    · exact Or.inl ⟨e, List.mem_cons_of_mem _ he, h1, h2⟩
    · by_cases hk : k = info.dbkey
      · subst hk
        rw [GoMap.get_set_self] at h'
        exact Or.inl ⟨(n, info), List.mem_cons_self _ _, rfl, (Option.some.inj h').symm⟩
      · rw [GoMap.get_set_ne _ _ _ _ hk] at h'
        exact Or.inr h'

/-- The result of the loop over `mnames`: the error for the first name that is not in
the table, if there is one. -/
theorem collectSome_error_iff (this : s_ObjInfo) (val : s_ObjMember → Iface) (tobj : GoType)
    (mnames : List String) (vs : GoMap Iface) :
    (∀ e, collectSome this val tobj mnames vs = Except.error e ↔
      ∃ p, (mnames.map TrimSpace).find? (fun p => decide (p ∉ this.keys)) = some p ∧
        e = Err.notMember p tobj) ∧
    ((∃ r, collectSome this val tobj mnames vs = Except.ok r) ↔
      ∀ p ∈ mnames.map TrimSpace, p ∈ this.keys) := by
  induction mnames generalizing vs with
  | nil => simp [collectSome]
  | cons m ms ih =>
    cases hg : this.get (TrimSpace m) with
    | none =>
      have hnot : TrimSpace m ∉ this.keys := (GoMap.get_eq_none_iff _ _).1 hg
      simp only [collectSome, hg, List.map_cons, List.find?_cons, hnot, not_false_eq_true,
        decide_True, Option.some.injEq, List.mem_cons, forall_eq_or_imp, false_and,
        iff_false, not_exists]
      refine ⟨fun e => ?_, fun r h => by cases h⟩
      constructor
      · intro h; cases h; exact ⟨_, rfl, rfl⟩
      · rintro ⟨p, rfl, rfl⟩; rfl
    | some info =>
      have hin : TrimSpace m ∈ this.keys := by
        by_contra hc
        rw [(GoMap.get_eq_none_iff _ _).2 hc] at hg
        cases hg
      simp only [collectSome, hg, List.map_cons, List.find?_cons, hin, not_true_eq_false,
        decide_False, List.mem_cons, forall_eq_or_imp, true_and]
      exact ih _


theorem splitChars_ne_nil (sep : Char) (cs : List Char) : splitChars sep cs ≠ [] := by
  cases cs with
  | nil => simp [splitChars]
  | cons c cs =>
    by_cases h : c = sep
    · simp [splitChars, h]
    · cases hs : splitChars sep cs <;> simp [splitChars, h, hs]

theorem Split_length_ne_zero (s : String) (sep : Char) : (Split s sep).length ≠ 0 := by
  simp [Split, splitChars_ne_nil]

/-- The accessor on a pointer to a named struct when the selector asks for all fields. -/
theorem dbkeyMapValues_of_all (rng : MapRange) (mem : Mem) (st : State) (tobj : GoType)
    (addr : Nat) (members : String) (ptr : Bool)
    (hs : tobj.Kind = Kind.Struct) (hn : tobj.Name ≠ "")
    (hsel : TrimSpace members = "" ∨ TrimSpace members = "*") :
    dbkeyMapValues rng mem st (Obj.typed (GoType.ptr tobj) (some addr)) members ptr =
      (Except.ok (collectAll (if ptr then memberPointer addr else memberValue mem addr)
        (rng.order (getOrAdd st tobj).1) []), (getOrAdd st tobj).2) := by
  have hsel' : (if TrimSpace members = "*" then String.mk ((TrimSpace members).data.drop 1)
      else TrimSpace members) = "" := by
    rcases hsel with h | h
    · rw [h]; decide
    · rw [h]; decide
  have hn' : ¬ tobj.Name = "" := hn
  simp only [dbkeyMapValues, hs, hn', ne_eq, not_true_eq_false, if_false, hsel']
  cases ptr <;>
    simp [s_ObjInfo.dbkeyMapMembers, s_ObjInfo.dbkeyMapPMembers,
      dbkeyMapMembersAll_eq, dbkeyMapPMembersAll_eq]

/-- The accessor on a pointer to a named struct when the selector lists field names. -/
theorem dbkeyMapValues_of_some (rng : MapRange) (mem : Mem) (st : State) (tobj : GoType)
    (addr : Nat) (members : String) (ptr : Bool)
    (hs : tobj.Kind = Kind.Struct) (hn : tobj.Name ≠ "")
    (h1 : TrimSpace members ≠ "") (h2 : TrimSpace members ≠ "*") :
    dbkeyMapValues rng mem st (Obj.typed (GoType.ptr tobj) (some addr)) members ptr =
      (collectSome (getOrAdd st tobj).1 (if ptr then memberPointer addr else memberValue mem addr)
        tobj (Split (TrimSpace members) ',') [], (getOrAdd st tobj).2) := by
  have hl := Split_length_ne_zero (TrimSpace members) ','
  have hn' : ¬ tobj.Name = "" := hn
  have h1' : ¬ TrimSpace members = "" := h1
  have h2' : ¬ TrimSpace members = "*" := h2
  simp only [dbkeyMapValues, hs, hn', h1', h2', ne_eq, not_true_eq_false, if_false]
  cases ptr <;>
    simp [hl, s_ObjInfo.dbkeyMapMembers,
      s_ObjInfo.dbkeyMapPMembers, dbkeyMapMembersSome_eq, dbkeyMapPMembersSome_eq]


/-! ## Lemmas on selectors -/

theorem trimSpaceChars_eq (cs : List Char) :
    trimSpaceChars cs = List.rdropWhile isSpace (cs.dropWhile isSpace) := rfl

theorem rdropWhile_cons (p : Char → Bool) (c : Char) (cs : List Char) :
    List.rdropWhile p (c :: cs) =
      if List.rdropWhile p cs = [] then (if p c then [] else [c])
      else c :: List.rdropWhile p cs := by
  induction cs using List.reverseRecOn with
  | nil => by_cases h : p c <;> simp [List.rdropWhile, h]
  | append_singleton cs d ih =>
    rw [← List.cons_append, List.rdropWhile_concat, List.rdropWhile_concat]
    by_cases hd : p d
    · simp only [hd, if_true]; exact ih
    · simp [hd]

theorem splitChars_of_no_sep (sep : Char) (cs : List Char) (h : ∀ x ∈ cs, x ≠ sep) :
    splitChars sep cs = [cs] := by
  induction cs with
  | nil => rfl
  | cons c cs ih =>
    have hc : ¬ c = sep := h c (List.mem_cons_self _ _)
    simp [splitChars, hc, ih (fun x hx => h x (List.mem_cons_of_mem _ hx))]

theorem map_rtrim_splitChars (sep : Char) (hsep : isSpace sep = false) (cs : List Char) :
    (splitChars sep (List.rdropWhile isSpace cs)).map (List.rdropWhile isSpace) =
      (splitChars sep cs).map (List.rdropWhile isSpace) := by
  induction cs with
  | nil => rfl
  | cons c cs ih =>
    rw [rdropWhile_cons]
    by_cases hnil : List.rdropWhile isSpace cs = []
    · have hall : ∀ x ∈ cs, isSpace x = true := List.rdropWhile_eq_nil_iff.1 hnil
      have hno : ∀ x ∈ cs, x ≠ sep := fun x hx e => by
        have := hall x hx; rw [e, hsep] at this; cases this
      have hs : splitChars sep cs = [cs] := splitChars_of_no_sep sep cs hno
      by_cases hc : isSpace c = true
      · have hcs : ¬ c = sep := fun e => by rw [e, hsep] at hc; cases hc
        simp [hnil, hc, splitChars, hcs, hs, rdropWhile_cons]
      · by_cases hcs : c = sep
        · subst hcs
          simp [hnil, hsep, splitChars, hs]
        · simp [hnil, hc, splitChars, hcs, hs, rdropWhile_cons]
    · simp only [hnil, if_false]
      by_cases hcs : c = sep
      · simp only [splitChars, hcs, if_true, List.map_cons, ih]
      · simp only [splitChars, hcs, if_false]
        cases h1 : splitChars sep (List.rdropWhile isSpace cs) with
        | nil => exact absurd h1 (splitChars_ne_nil _ _)
        | cons p1 ps1 =>
          cases h2 : splitChars sep cs with
          | nil => exact absurd h2 (splitChars_ne_nil _ _)
          | cons p2 ps2 =>
            rw [h1, h2] at ih
            simp only [List.map_cons, List.cons.injEq] at ih ⊢
            refine ⟨?_, ih.2⟩
            rw [rdropWhile_cons, rdropWhile_cons isSpace c p2, ih.1]

theorem map_ltrim_splitChars (sep : Char) (hsep : isSpace sep = false) (cs : List Char) :
    (splitChars sep (cs.dropWhile isSpace)).map (List.dropWhile isSpace) =
      (splitChars sep cs).map (List.dropWhile isSpace) := by
  induction cs with
  | nil => rfl
  | cons c cs ih =>
    by_cases hc : isSpace c = true
    · have hcs : ¬ c = sep := fun e => by rw [e, hsep] at hc; cases hc
      rw [List.dropWhile_cons_of_pos hc, ih]
      simp only [splitChars, hcs, if_false]
      cases h2 : splitChars sep cs with
      | nil => exact absurd h2 (splitChars_ne_nil _ _)
      | cons p2 ps2 => simp [List.dropWhile_cons_of_pos hc]
    · rw [List.dropWhile_cons_of_neg hc]

theorem dropWhile_rdropWhile (cs : List Char) :
    (List.rdropWhile isSpace cs).dropWhile isSpace =
      List.rdropWhile isSpace (cs.dropWhile isSpace) := by
  induction cs with
  | nil => rfl
  | cons c cs ih =>
    rw [rdropWhile_cons]
    by_cases hc : isSpace c = true
    · rw [List.dropWhile_cons_of_pos hc, ← ih]
      by_cases hnil : List.rdropWhile isSpace cs = []
      · simp [hnil, hc]
      · simp [hnil, List.dropWhile_cons_of_pos hc]
    · rw [List.dropWhile_cons_of_neg hc, rdropWhile_cons]
      by_cases hnil : List.rdropWhile isSpace cs = []
      · simp [hnil, hc]
      · simp [hnil, List.dropWhile_cons_of_neg hc]

theorem map_trim_splitChars (sep : Char) (hsep : isSpace sep = false) (cs : List Char) :
    (splitChars sep (trimSpaceChars cs)).map trimSpaceChars =
      (splitChars sep cs).map trimSpaceChars := by
  have hfun : trimSpaceChars = List.dropWhile isSpace ∘ List.rdropWhile isSpace := by
    funext l
    rw [trimSpaceChars_eq, Function.comp_apply, dropWhile_rdropWhile]
  have hfun' : trimSpaceChars = List.rdropWhile isSpace ∘ List.dropWhile isSpace := by
    funext l
    rw [trimSpaceChars_eq, Function.comp_apply]
  rw [trimSpaceChars_eq]
  conv_lhs => rw [hfun, ← List.map_map, map_rtrim_splitChars sep hsep, List.map_map, ← hfun,
    hfun', ← List.map_map, map_ltrim_splitChars sep hsep, List.map_map, ← hfun']

/-- Trimming the pieces of the trimmed selector gives the trimmed pieces of the selector. -/
theorem Split_TrimSpace (s : String) :
    (Split (TrimSpace s) ',').map TrimSpace = (Split s ',').map TrimSpace := by
  have h := map_trim_splitChars ',' (by decide) s.data
  have hc : (TrimSpace ∘ String.mk) = String.mk ∘ trimSpaceChars := by
    funext l; rfl
  have hd : (TrimSpace s).data = trimSpaceChars s.data := rfl
  simp only [Split, List.map_map]
  rw [hc, hd, ← List.map_map, h, List.map_map]


/-! ## The accessor: selectors -/

theorem newObjInfo_entry (colTags : List String) (tobj : GoType) (e : String × s_ObjMember)
    (he : e ∈ newObjInfo colTags tobj) :
    ∃ f ∈ tobj.fields, f.Name = e.1 ∧ firstNonEmpty f.Tag colTags ≠ some "-" ∧
      e.2.dbkey = (firstNonEmpty f.Tag colTags).getD f.Name ∧ e.2.vtype = f.Typ ∧
      e.2.offset = f.Offset := by
  obtain ⟨n, info⟩ := e
  have hd : (newObjInfo colTags tobj).keys.Nodup :=
    newObjInfoLoop_keys_nodup colTags tobj.fields [] (by simp [GoMap.keys])
  have hg := GoMap.get_of_mem _ hd n info he
  rcases newObjInfoLoop_get colTags tobj.fields [] n info hg with ⟨f, hf, hn, k, hk, hi⟩ | h'
  · refine ⟨f, hf, hn, ?_, ?_, ?_, ?_⟩
    · intro hex
      rw [(newObjInfoKey_eq_none_iff _ _).2 hex] at hk
      cases hk
    · rw [hi]; exact newObjInfoKey_dbkey f.Tag colTags k f.Name hk
    · rw [hi]
    · rw [hi]
  · simp [GoMap.get] at h'

/-- C1: on a non-nil pointer to a named struct, with a selector that is empty or `"*"`
once trimmed, `dbkeyMapValues` in value mode succeeds; the keys of the map it returns are
exactly the storage keys of the descriptor table the cache gives for the type, and each
value is what the instance holds at the offset, and with the type, of a descriptor that
carries the key. When that table is the one `newObjInfo` builds for the type, each value
is the current value of a field of the instance whose storage key is the key. -/
theorem dbkeyMapValues_all (rng : MapRange) (mem : Mem) (st : State) (tobj : GoType)
    (addr : Nat) (members : String)
    (hs : tobj.Kind = Kind.Struct) (hn : tobj.Name ≠ "")
    (hsel : TrimSpace members = "" ∨ TrimSpace members = "*") :
    ∃ vs, dbkeyMapValues rng mem st (Obj.typed (GoType.ptr tobj) (some addr)) members false =
        (Except.ok vs, (getOrAdd st tobj).2) ∧
      (∀ k, k ∈ vs.keys ↔ ∃ e ∈ (getOrAdd st tobj).1, e.2.dbkey = k) ∧
      vs.keys.Nodup ∧
      (∀ k v, vs.get k = some v → ∃ e ∈ (getOrAdd st tobj).1, e.2.dbkey = k ∧
        v = Iface.value e.2.vtype (mem (addr + e.2.offset))) ∧
      ((getOrAdd st tobj).1 = newObjInfo st.colTags tobj → ∀ k v, vs.get k = some v →
        ∃ f ∈ tobj.fields, firstNonEmpty f.Tag st.colTags ≠ some "-" ∧
          (firstNonEmpty f.Tag st.colTags).getD f.Name = k ∧
          v = Iface.value f.Typ (mem (addr + f.Offset))) := by
  refine ⟨_, dbkeyMapValues_of_all rng mem st tobj addr members false hs hn hsel, ?_, ?_, ?_, ?_⟩
  · intro k
    rw [collectAll_mem_keys]
    simp only [GoMap.keys, List.map_nil, List.not_mem_nil, or_false]
    constructor
    · rintro ⟨e, he, h⟩; exact ⟨e, (rng.perm _).mem_iff.1 he, h⟩
    · rintro ⟨e, he, h⟩; exact ⟨e, (rng.perm _).mem_iff.2 he, h⟩
  · exact collectAll_keys_nodup _ _ _ (by simp [GoMap.keys])
  · intro k v h
    rcases collectAll_get _ _ _ k v h with ⟨e, he, h1, h2⟩ | h'
    · exact ⟨e, (rng.perm _).mem_iff.1 he, h1, by simpa [memberValue] using h2⟩
    · simp [GoMap.get] at h'
  · intro htab k v h
    rcases collectAll_get _ _ _ k v h with ⟨e, he, h1, h2⟩ | h'
    · have he' : e ∈ newObjInfo st.colTags tobj := htab ▸ (rng.perm _).mem_iff.1 he
      obtain ⟨f, hf, _, hex, hk, ht, ho⟩ := newObjInfo_entry st.colTags tobj e he'
      refine ⟨f, hf, hex, ?_, ?_⟩
      · rw [← hk, h1]
      · rw [← ht, ← ho]; simpa [memberValue] using h2
    · simp [GoMap.get] at h'

theorem dbkeyMapValues_all_witness :
    exampleUser.Kind = Kind.Struct ∧ exampleUser.Name ≠ "" ∧
    (TrimSpace " * " = "" ∨ TrimSpace " * " = "*") ∧
    ∃ vs, dbkeyMapValues exampleRange exampleMem State.init
        (Obj.typed (GoType.ptr exampleUser) (some 1000)) " * " false =
        (Except.ok vs, (getOrAdd State.init exampleUser).2) ∧
      (∀ k, k ∈ vs.keys ↔ ∃ e ∈ (getOrAdd State.init exampleUser).1, e.2.dbkey = k) ∧
      vs.keys.Nodup ∧
      (∀ k v, vs.get k = some v → ∃ e ∈ (getOrAdd State.init exampleUser).1, e.2.dbkey = k ∧
        v = Iface.value e.2.vtype (exampleMem (1000 + e.2.offset))) ∧
      ((getOrAdd State.init exampleUser).1 = newObjInfo State.init.colTags exampleUser →
        ∀ k v, vs.get k = some v →
        ∃ f ∈ exampleUser.fields, firstNonEmpty f.Tag State.init.colTags ≠ some "-" ∧
          (firstNonEmpty f.Tag State.init.colTags).getD f.Name = k ∧
          v = Iface.value f.Typ (exampleMem (1000 + f.Offset))) :=
  ⟨by decide, by decide, by decide,
    dbkeyMapValues_all exampleRange exampleMem State.init exampleUser 1000 " * "
      (by decide) (by decide) (by decide)⟩

/-- C2: on a non-nil pointer to a named struct, with a selector that is neither empty nor
`"*"` once trimmed, `dbkeyMapValues` (in either mode) fails exactly when some
comma-separated piece of the selector, trimmed, is not a field name of the descriptor
table, and the error then names the first such piece. When the table is the one
`newObjInfo` builds for the type, a piece that names an excluded field (field names being
distinct) and a piece that is the name of no field, such as the empty piece of `"a,,b"`,
make the call fail. -/
theorem dbkeyMapValues_unknown (rng : MapRange) (mem : Mem) (st : State) (tobj : GoType)
    (addr : Nat) (members : String) (ptr : Bool)
    (hs : tobj.Kind = Kind.Struct) (hn : tobj.Name ≠ "")
    (h1 : TrimSpace members ≠ "") (h2 : TrimSpace members ≠ "*") :
    ((∃ e, (dbkeyMapValues rng mem st (Obj.typed (GoType.ptr tobj) (some addr)) members ptr).1 =
        Except.error e) ↔
      ∃ p ∈ (Split members ',').map TrimSpace, p ∉ (getOrAdd st tobj).1.keys) ∧
    (∀ e, (dbkeyMapValues rng mem st (Obj.typed (GoType.ptr tobj) (some addr)) members ptr).1 =
        Except.error e →
      ∃ p, ((Split members ',').map TrimSpace).find?
          (fun p => decide (p ∉ (getOrAdd st tobj).1.keys)) = some p ∧
        e = Err.notMember p tobj) ∧
    ((getOrAdd st tobj).1 = newObjInfo st.colTags tobj →
      (∀ p ∈ (Split members ',').map TrimSpace, (∀ f ∈ tobj.fields, f.Name ≠ p) →
        ∃ e, (dbkeyMapValues rng mem st (Obj.typed (GoType.ptr tobj) (some addr))
          members ptr).1 = Except.error e) ∧
      ((tobj.fields.map (fun f => f.Name)).Nodup → ∀ f ∈ tobj.fields,
        firstNonEmpty f.Tag st.colTags = some "-" →
        f.Name ∈ (Split members ',').map TrimSpace →
        ∃ e, (dbkeyMapValues rng mem st (Obj.typed (GoType.ptr tobj) (some addr))
          members ptr).1 = Except.error e)) ∧
    (Split "a,,b" ',').map TrimSpace = ["a", "", "b"] := by
  have hrun := dbkeyMapValues_of_some rng mem st tobj addr members ptr hs hn h1 h2
  have hcs := collectSome_error_iff (getOrAdd st tobj).1
    (if ptr then memberPointer addr else memberValue mem addr) tobj
    (Split (TrimSpace members) ',') []
  rw [Split_TrimSpace] at hcs
  have hfail : (∃ e, (dbkeyMapValues rng mem st (Obj.typed (GoType.ptr tobj) (some addr))
        members ptr).1 = Except.error e) ↔
      ∃ p ∈ (Split members ',').map TrimSpace, p ∉ (getOrAdd st tobj).1.keys := by
    rw [hrun]
    constructor
    · rintro ⟨e, he⟩
      obtain ⟨p, hp, _⟩ := (hcs.1 e).1 he
      have := List.find?_some hp
      exact ⟨p, List.mem_of_find?_eq_some hp, by simpa using this⟩
    · rintro ⟨p, hp, hnot⟩
      cases hr : collectSome (getOrAdd st tobj).1
          (if ptr then memberPointer addr else memberValue mem addr) tobj
          (Split (TrimSpace members) ',') [] with
      | error e => exact ⟨e, rfl⟩
      | ok r => exact absurd (hcs.2.1 ⟨r, hr⟩ p hp) hnot
  refine ⟨hfail, ?_, ?_, by decide⟩
  · intro e he
    rw [hrun] at he
    exact (hcs.1 e).1 he
  · intro htab
    have hkeys : ∀ n, n ∈ (getOrAdd st tobj).1.keys ↔
        ∃ f ∈ tobj.fields, f.Name = n ∧ newObjInfoKey f.Tag st.colTags ≠ none := by
      intro n
      rw [htab, newObjInfo, newObjInfoLoop_mem_keys]
      simp [GoMap.keys]
    constructor
    · intro p hp hno
      refine hfail.2 ⟨p, hp, ?_⟩
      rw [hkeys]
      rintro ⟨f, hf, hfn, _⟩
      exact hno f hf hfn
    · intro hd f hf hex hp
      refine hfail.2 ⟨f.Name, hp, ?_⟩
      rw [hkeys]
      rintro ⟨g, hg, hgn, hk⟩
      have hgf : g = f := List.inj_on_of_nodup_map hd hg hf hgn
      rw [hgf] at hk
      exact hk ((newObjInfoKey_eq_none_iff _ _).2 hex)

theorem dbkeyMapValues_unknown_witness :
    exampleUser.Kind = Kind.Struct ∧ exampleUser.Name ≠ "" ∧
    TrimSpace " Name, Password" ≠ "" ∧ TrimSpace " Name, Password" ≠ "*" ∧
    ((∃ e, (dbkeyMapValues exampleRange exampleMem State.init
        (Obj.typed (GoType.ptr exampleUser) (some 1000)) " Name, Password" false).1 =
        Except.error e) ↔
      ∃ p ∈ (Split " Name, Password" ',').map TrimSpace,
        p ∉ (getOrAdd State.init exampleUser).1.keys) :=
  ⟨by decide, by decide, by decide, by decide,
    (dbkeyMapValues_unknown exampleRange exampleMem State.init exampleUser 1000
      " Name, Password" false (by decide) (by decide) (by decide) (by decide)).1⟩


/-! ## Invalid arguments, and the cache -/

/-- C3, as stated, fails: on a nil pointer whose target type `int` is not a struct the
error is the one for a target that is not a struct, not one of the kind `InvalidInput`. -/
theorem dbkeyMapValues_nil_pointer_not_struct :
    ¬ ∃ e, (dbkeyMapValues exampleRange exampleMem State.init
        (Obj.typed (GoType.ptr exampleInt) none) "" false).1 = Except.error e ∧
      e.kind = ErrKind.InvalidInput := by
  rintro ⟨e, he, hk⟩
  have h : (dbkeyMapValues exampleRange exampleMem State.init
      (Obj.typed (GoType.ptr exampleInt) none) "" false).1 = Except.error Err.notStruct := rfl
  rw [h] at he
  cases he
  cases hk

/-- C3, amended: for every selector and flag, `dbkeyMapValues` fails with an error of
kind `InvalidInput` when the argument is untyped nil, is not a pointer, or is a nil
pointer to a named struct, and with an error of kind `InvalidShape` when the argument is
a pointer, nil or not, whose target type is not a struct or is an anonymous struct; the
state is left as it was. -/
theorem dbkeyMapValues_invalid (rng : MapRange) (mem : Mem) (st : State) (members : String)
    (ptr : Bool) :
    (dbkeyMapValues rng mem st Obj.nil members ptr = (Except.error Err.nilType, st) ∧
      Err.nilType.kind = ErrKind.InvalidInput) ∧
    (∀ t p, t.Kind ≠ Kind.Ptr →
      dbkeyMapValues rng mem st (Obj.typed t p) members ptr = (Except.error Err.notPointer, st) ∧
      Err.notPointer.kind = ErrKind.InvalidInput) ∧
    (∀ tobj, tobj.Kind = Kind.Struct → tobj.Name ≠ "" →
      dbkeyMapValues rng mem st (Obj.typed (GoType.ptr tobj) none) members ptr =
        (Except.error Err.nilPointer, st) ∧
      Err.nilPointer.kind = ErrKind.InvalidInput) ∧
    (∀ tobj p, tobj.Kind ≠ Kind.Struct →
      dbkeyMapValues rng mem st (Obj.typed (GoType.ptr tobj) p) members ptr =
        (Except.error Err.notStruct, st) ∧
      Err.notStruct.kind = ErrKind.InvalidShape) ∧
    (∀ tobj p, tobj.Kind = Kind.Struct → tobj.Name = "" →
      dbkeyMapValues rng mem st (Obj.typed (GoType.ptr tobj) p) members ptr =
        (Except.error Err.anonymous, st) ∧
      Err.anonymous.kind = ErrKind.InvalidShape) := by
  refine ⟨⟨rfl, rfl⟩, ?_, ?_, ?_, ?_⟩
  · intro t p ht
    refine ⟨?_, rfl⟩
    cases t with
    | ptr e => exact absurd rfl ht
    | struct a b c d => rfl
    | other k a b c => rfl
  · intro tobj hs hn
    have hn' : ¬ tobj.Name = "" := hn
    exact ⟨by simp only [dbkeyMapValues, hs, hn', ne_eq, not_true_eq_false, if_false], rfl⟩
  · intro tobj p hs
    exact ⟨by simp only [dbkeyMapValues, hs, ne_eq, not_false_eq_true, if_true], rfl⟩
  · intro tobj p hs hn
    exact ⟨by simp only [dbkeyMapValues, hs, hn, ne_eq, not_true_eq_false, if_false, if_true],
      rfl⟩

theorem dbkeyMapValues_invalid_witness :
    exampleUser.Kind = Kind.Struct ∧ exampleUser.Name ≠ "" ∧
    dbkeyMapValues exampleRange exampleMem State.init (Obj.typed (GoType.ptr exampleUser) none)
      "Name" true = (Except.error Err.nilPointer, State.init) ∧
    Err.nilPointer.kind = ErrKind.InvalidInput :=
  ⟨by decide, by decide,
    (dbkeyMapValues_invalid exampleRange exampleMem State.init "Name" true).2.2.1 exampleUser
      (by decide) (by decide)⟩

theorem GoMap.get_nil {V : Type} (k : String) : GoMap.get ([] : GoMap V) k = none := rfl

theorem s_ObjCache.get_add (st : State) (tobj : GoType) :
    s_ObjCache.get (s_ObjCache.add st tobj).2 tobj = some (newObjInfo st.colTags tobj) := by
  simp only [s_ObjCache.get, s_ObjCache.add, GoMap.get_set_self]

/-- C7: the get-then-add step of `dbkeyMapValues`, done twice in a row from any state and
for any type, returns the same table both times; after the first step the cache holds
that table for the type, so that the second step finds it with `get`, does not reach
`add`, and leaves the state as the first step left it. -/
theorem getOrAdd_idempotent (st : State) (tobj : GoType) :
    (getOrAdd (getOrAdd st tobj).2 tobj).1 = (getOrAdd st tobj).1 ∧
    s_ObjCache.get (getOrAdd st tobj).2 tobj = some (getOrAdd st tobj).1 ∧
    (getOrAdd (getOrAdd st tobj).2 tobj).2 = (getOrAdd st tobj).2 := by
  have hget : s_ObjCache.get (getOrAdd st tobj).2 tobj = some (getOrAdd st tobj).1 := by
    cases h : s_ObjCache.get st tobj with
    | some ms => simp only [getOrAdd, h]
    | none =>
      simp only [getOrAdd, h]
      exact s_ObjCache.get_add st tobj
  refine ⟨?_, hget, ?_⟩
  · conv_lhs => rw [getOrAdd, hget]
  · conv_lhs => rw [getOrAdd, hget]

theorem dbkeyMapValues_state (rng : MapRange) (mem : Mem) (st : State) (obj : Obj)
    (members : String) (ptr : Bool) :
    (dbkeyMapValues rng mem st obj members ptr).2 = st ∨
      ∃ tobj p, obj = Obj.typed (GoType.ptr tobj) p ∧
        (dbkeyMapValues rng mem st obj members ptr).2 = (getOrAdd st tobj).2 := by
  cases obj with
  | nil => exact Or.inl rfl
  | typed t p =>
    cases t with
    | struct a b c d => exact Or.inl rfl
    | other k a b c => exact Or.inl rfl
    | ptr tobj =>
      by_cases hs : tobj.Kind = Kind.Struct
      · by_cases hn : tobj.Name = ""
        · left; simp only [dbkeyMapValues, hs, hn, ne_eq, not_true_eq_false, if_false, if_true]
        · cases p with
          | none =>
            left; simp only [dbkeyMapValues, hs, hn, ne_eq, not_true_eq_false, if_false]
          | some addr =>
            right
            refine ⟨tobj, some addr, rfl, ?_⟩
            simp only [dbkeyMapValues, hs, hn, ne_eq, not_true_eq_false, if_false]
            cases ptr <;> simp
      · left; simp only [dbkeyMapValues, hs, ne_eq, not_false_eq_true, if_true]

/-- The tables of a cache all built by `newObjInfo` under the current key tags, for types
of `U`: the get-then-add step for a type of `U` keeps it so. -/
theorem getOrAdd_built (U : GoType → Prop) (st : State) (tobj : GoType) (hu : U tobj)
    (h : ∀ key ms, st.objs.get key = some ms →
      ∃ t, U t ∧ cacheKey t = key ∧ ms = newObjInfo st.colTags t) :
    (getOrAdd st tobj).2.colTags = st.colTags ∧
    ∀ key ms, (getOrAdd st tobj).2.objs.get key = some ms →
      ∃ t, U t ∧ cacheKey t = key ∧ ms = newObjInfo st.colTags t := by
  cases hg : s_ObjCache.get st tobj with
  | some ms =>
    have e : getOrAdd st tobj = (ms, st) := by simp only [getOrAdd, hg]
    rw [e]
    exact ⟨rfl, h⟩
  | none =>
    have e : getOrAdd st tobj = s_ObjCache.add st tobj := by simp only [getOrAdd, hg]
    rw [e]
    refine ⟨rfl, ?_⟩
    intro key ms hk
    simp only [s_ObjCache.add] at hk
    by_cases hkey : key = cacheKey tobj
    · subst hkey
      rw [GoMap.get_set_self] at hk
      exact ⟨tobj, hu, rfl, (Option.some.inj hk).symm⟩
    · rw [GoMap.get_set_ne _ _ _ _ hkey] at hk
      exact h key ms hk

/-- Without writes of the caller to the slices it passed, every cached table is the one
`newObjInfo` builds under the current key tags for a type of `U` with that cache key. -/
theorem reached_built (U : GoType → Prop) (st : State) (hr : ReachedBy U false st) :
    ∀ key ms, st.objs.get key = some ms →
      ∃ t, U t ∧ cacheKey t = key ∧ ms = newObjInfo st.colTags t := by
  induction hr with
  | init => intro key ms h; cases h
  | mapValues rng mem st obj members ptr _ hu ih =>
    rcases dbkeyMapValues_state rng mem st obj members ptr with h | ⟨tobj, p, hobj, h⟩
    · rw [h]; exact ih
    · rw [h]
      have := getOrAdd_built U st tobj (hu tobj p hobj) ih
      rw [this.1]
      exact this.2
  | clear st _ _ => intro key ms h; cases h
  | resetTags st tags _ _ => intro key ms h; cases h
  | resetTypeTags st tags _ _ => intro key ms h; cases h
  | writeTags st i tag hw _ _ => cases hw
  | writeTypeTags st i tag hw _ _ => cases hw

/-- C8, as stated, fails: after `s := []string{"db"}; ResetDBTags(s...)`, a call of
`dbkeyMapValues` on an `Item` and the write `s[0] = "json"`, the state is reachable with
`Item` the only type passed, the key tags are `["json"]`, and the cache still holds for
`Item` the table built under `["db"]`, which is not the table of `Item` under the current
key tags: the next call returns the key `"title"`, not `"name"`. -/
theorem stale_table_after_write :
    Reachable exampleStale ∧
    ReachedBy (fun t => t = exampleItem) true exampleStale ∧
    exampleStale.colTags = ["json"] ∧
    s_ObjCache.get exampleStale exampleItem = some (newObjInfo ["db"] exampleItem) ∧
    ¬ (∀ key ms, exampleStale.objs.get key = some ms →
      ∃ tobj, tobj = exampleItem ∧ cacheKey tobj = key ∧
        ms = newObjInfo exampleStale.colTags tobj) ∧
    (dbkeyMapValues exampleRange exampleMem exampleStale
      (Obj.typed (GoType.ptr exampleItem) (some 1000)) "" false).1 =
      Except.ok [("title", Iface.value exampleString 10000)] := by
  refine ⟨?_, ?_, rfl, rfl, ?_, rfl⟩
  · exact ReachedBy.writeTags _ _ _ rfl
      (ReachedBy.mapValues _ _ _ _ _ _ (ReachedBy.resetTags _ _ ReachedBy.init)
        (fun _ _ _ => trivial))
  · refine ReachedBy.writeTags _ _ _ rfl
      (ReachedBy.mapValues _ _ _ _ _ _ (ReachedBy.resetTags _ _ ReachedBy.init) ?_)
    intro tobj p h
    cases h
    rfl
  · intro h
    obtain ⟨tobj, ht, _, hms⟩ := h (cacheKey exampleItem) (newObjInfo ["db"] exampleItem) rfl
    subst ht
    have hkeys := congrArg (fun m : s_ObjInfo => m.map (fun e => e.2.dbkey)) hms
    exact absurd hkeys (by decide)

/-- C8, amended: after `ResetDBTags`, `ResetDBTypeTags` or `ClearObjectCache` the cache has
no table for any type; after `ResetDBTags(tags)` the get-then-add step builds the table of
a type under `tags`, and the next `dbkeyMapValues` on a pointer to a named struct works on
that table (for the example `Item`, cached under the tag `db` with key `"title"`, the call
after `ResetDBTags("json")` returns the key `"name"`); and in every state reached by calls
of the package alone, without a write of the caller to a slice it passed to `ResetDBTags`,
every cached table is the one `newObjInfo` builds, under the current key tags, for a type
that was passed and has that cache key. -/
theorem reset_invalidates (st : State) (tags : List String) :
    (∀ tobj, s_ObjCache.get (ResetDBTags st tags) tobj = none) ∧
    (∀ tobj, s_ObjCache.get (ResetDBTypeTags st tags) tobj = none) ∧
    (∀ tobj, s_ObjCache.get (ClearObjectCache st) tobj = none) ∧
    (ResetDBTags st tags).colTags = tags ∧
    (∀ tobj, (getOrAdd (ResetDBTags st tags) tobj).1 = newObjInfo tags tobj) ∧
    (∀ rng mem tobj addr members ptr, tobj.Kind = Kind.Struct → tobj.Name ≠ "" →
      ∃ mnames, (dbkeyMapValues rng mem (ResetDBTags st tags)
          (Obj.typed (GoType.ptr tobj) (some addr)) members ptr).1 =
        if ptr then (newObjInfo tags tobj).dbkeyMapPMembers rng tobj addr mnames
        else (newObjInfo tags tobj).dbkeyMapMembers rng mem tobj addr mnames) ∧
    ((dbkeyMapValues exampleRange exampleMem State.init
        (Obj.typed (GoType.ptr exampleItem) (some 1000)) "" false).1 =
        Except.ok [("title", Iface.value exampleString 10000)] ∧
      (dbkeyMapValues exampleRange exampleMem
        (ResetDBTags (dbkeyMapValues exampleRange exampleMem State.init
          (Obj.typed (GoType.ptr exampleItem) (some 1000)) "" false).2 ["json"])
        (Obj.typed (GoType.ptr exampleItem) (some 1000)) "" false).1 =
        Except.ok [("name", Iface.value exampleString 10000)]) ∧
    (∀ U : GoType → Prop, ReachedBy U false st → ∀ key ms, st.objs.get key = some ms →
      ∃ tobj, U tobj ∧ cacheKey tobj = key ∧ ms = newObjInfo st.colTags tobj) := by
  refine ⟨fun _ => rfl, fun _ => rfl, fun _ => rfl, rfl, fun _ => rfl, ?_, ⟨rfl, rfl⟩,
    fun U hr => reached_built U st hr⟩
  intro rng mem tobj addr members ptr hs hn
  have hn' : ¬ tobj.Name = "" := hn
  simp only [dbkeyMapValues, hs, hn', ne_eq, not_true_eq_false, if_false]
  cases ptr
  · exact ⟨_, rfl⟩
  · exact ⟨_, rfl⟩

theorem reset_invalidates_witness :
    ReachedBy (fun t => t = exampleItem) false
      (dbkeyMapValues exampleRange exampleMem State.init
        (Obj.typed (GoType.ptr exampleItem) (some 1000)) "" false).2 ∧
    ∀ key ms, (dbkeyMapValues exampleRange exampleMem State.init
        (Obj.typed (GoType.ptr exampleItem) (some 1000)) "" false).2.objs.get key = some ms →
      ∃ tobj, tobj = exampleItem ∧ cacheKey tobj = key ∧
        ms = newObjInfo (dbkeyMapValues exampleRange exampleMem State.init
          (Obj.typed (GoType.ptr exampleItem) (some 1000)) "" false).2.colTags tobj :=
  ⟨ReachedBy.mapValues _ _ _ _ _ _ ReachedBy.init (fun _ _ h => by cases h; rfl),
    (reset_invalidates (dbkeyMapValues exampleRange exampleMem State.init
      (Obj.typed (GoType.ptr exampleItem) (some 1000)) "" false).2 []).2.2.2.2.2.2.2
      (fun t => t = exampleItem)
      (ReachedBy.mapValues _ _ _ _ _ _ ReachedBy.init (fun _ _ h => by cases h; rfl))⟩

theorem dbkeyTypesTag_eq (tag : StructTag) (tags : List String) :
    dbkeyTypesTag tag tags = (firstNonEmpty tag tags).getD "" := by
  induction tags with
  | nil => rfl
  | cons t tags ih =>
    rw [firstNonEmpty_cons]
    by_cases h : tag.Get t = ""
    · simp [dbkeyTypesTag, h, ih]
    · simp [dbkeyTypesTag, h]

theorem dbkeyTypesTag_key (tag : StructTag) (tags : List String) (name : String) :
    (if dbkeyTypesTag tag tags = "" then name else dbkeyTypesTag tag tags) =
      (firstNonEmpty tag tags).getD name := by
  rw [dbkeyTypesTag_eq]
  cases h : firstNonEmpty tag tags with
  | none => simp
  | some v => simp [firstNonEmpty_ne_empty tag tags v h]

theorem dbkeyTypesLoop_eq (st : State) (fs : List (StructField GoType))
    (keyTypes : List (String × String)) :
    dbkeyTypesLoop st fs keyTypes = keyTypes ++ fs.filterMap (fun f =>
      (firstNonEmpty f.Tag st.colTypeTags).map
        (fun td => ((firstNonEmpty f.Tag st.colTags).getD f.Name, td))) := by
  induction fs generalizing keyTypes with
  | nil => simp [dbkeyTypesLoop]
  | cons f fs ih =>
    simp only [dbkeyTypesLoop, dbkeyTypesTag_key]
    rw [dbkeyTypesTag_eq]
    cases h : firstNonEmpty f.Tag st.colTypeTags with
    | none => simp [ih, List.filterMap_cons, h]
    | some td =>
      have htd := firstNonEmpty_ne_empty _ _ td h
      simp [ih, List.filterMap_cons, h, htd]

/-- C9: for a struct value and for a pointer to a struct, nil or not, `dbkeyTypes`
succeeds and returns, in the order of the fields, one pair for each field that has a
non-empty value under some type tag and none for the others; the second component of the
pair is the first non-empty value among the field's type tags, in list order, and the
first is the first non-empty value among its key tags or, without one, the field name. -/
theorem dbkeyTypes_pairs (st : State) (pkgPath name str : String)
    (fields : List (StructField GoType)) (p : Option Nat) :
    dbkeyTypes st (Obj.typed (GoType.struct pkgPath name str fields) p) =
      Except.ok (fields.filterMap (fun f =>
        (firstNonEmpty f.Tag st.colTypeTags).map
          (fun td => ((firstNonEmpty f.Tag st.colTags).getD f.Name, td)))) ∧
    dbkeyTypes st (Obj.typed (GoType.ptr (GoType.struct pkgPath name str fields)) p) =
      Except.ok (fields.filterMap (fun f =>
        (firstNonEmpty f.Tag st.colTypeTags).map
          (fun td => ((firstNonEmpty f.Tag st.colTags).getD f.Name, td)))) := by
  constructor <;>
    simp [dbkeyTypes, GoType.Kind, GoType.fields, dbkeyTypesLoop_eq]

/-- C10 at the failing input: for the struct `Account`, whose field `Secret` carries the
exclusion marker under `db` and a storage type under `dbtd`, `dbkeyTypes` reports the
field with key `"-"`, while `newObjInfo` does not map the field. -/
theorem dbkeyTypes_reports_excluded :
    dbkeyTypes State.init (Obj.typed exampleAccount none) =
      Except.ok [("-", "varchar(32)")] ∧
    newObjInfo State.init.colTags exampleAccount = [] :=
  ⟨rfl, rfl⟩


/-! ## The accessor in reference mode -/

theorem isFieldName_spec (s : String) (h : isFieldName s = true) :
    s.data ≠ [] ∧ ∀ c ∈ s.data, isSpace c = false ∧ c ≠ ',' := by
  simp only [isFieldName, Bool.and_eq_true, Bool.not_eq_true', List.isEmpty_eq_false,
    List.all_eq_true, decide_eq_false_iff_not] at h
  exact ⟨h.1, h.2⟩

theorem trimSpaceChars_eq_self (cs : List Char) (hne : cs ≠ [])
    (hsp : ∀ c ∈ cs, isSpace c = false) : trimSpaceChars cs = cs := by
  have h1 : cs.dropWhile isSpace = cs := by
    cases cs with
    | nil => rfl
    | cons c cs =>
      have := hsp c (List.mem_cons_self _ _)
      simp [List.dropWhile, this]
  rw [trimSpaceChars_eq, h1]
  apply List.rdropWhile_eq_self_iff.2
  intro hl
  have := hsp _ (List.getLast_mem hl)
  simp [this]

theorem trimSpaceChars_space_cons (cs : List Char) (hne : cs ≠ [])
    (hsp : ∀ c ∈ cs, isSpace c = false) : trimSpaceChars (' ' :: cs) = cs := by
  have h0 : isSpace ' ' = true := by decide
  have h1 : (' ' :: cs).dropWhile isSpace = cs.dropWhile isSpace := by
    simp [List.dropWhile, h0]
  have h2 := trimSpaceChars_eq_self cs hne hsp
  rw [trimSpaceChars_eq] at h2 ⊢
  rw [h1, h2]

theorem splitChars_append_sep (sep : Char) (a rest : List Char) (h : ∀ x ∈ a, x ≠ sep) :
    splitChars sep (a ++ sep :: rest) = a :: splitChars sep rest := by
  induction a with
  | nil => simp [splitChars]
  | cons c a ih =>
    have hc : ¬ c = sep := h c (List.mem_cons_self _ _)
    simp [splitChars, hc, ih (fun x hx => h x (List.mem_cons_of_mem _ hx))]

/-- The selector `a, b` for two field names: it is its own trimmed form, is neither empty
nor `"*"`, and its pieces are `a` and `b` preceded by a space. -/
theorem selector_two (a b : String) (ha : isFieldName a = true) (hb : isFieldName b = true) :
    TrimSpace (a ++ ", " ++ b) = a ++ ", " ++ b ∧
    a ++ ", " ++ b ≠ "" ∧ a ++ ", " ++ b ≠ "*" ∧
    Split (a ++ ", " ++ b) ',' = [a, String.mk (' ' :: b.data)] ∧
    TrimSpace a = a ∧ TrimSpace (String.mk (' ' :: b.data)) = b := by
  obtain ⟨hane, hac⟩ := isFieldName_spec a ha
  obtain ⟨hbne, hbc⟩ := isFieldName_spec b hb
  have hdata : (a ++ ", " ++ b).data = a.data ++ ',' :: ' ' :: b.data := by
    simp [String.data_append]
  have hlen : 2 ≤ (a ++ ", " ++ b).data.length := by
    rw [hdata]; simp only [List.length_append, List.length_cons]; omega
  have htrim : trimSpaceChars (a.data ++ ',' :: ' ' :: b.data) = a.data ++ ',' :: ' ' :: b.data := by
    have h1 : (a.data ++ ',' :: ' ' :: b.data).dropWhile isSpace = a.data ++ ',' :: ' ' :: b.data := by
      cases hd : a.data with
      | nil => exact absurd hd hane
      | cons c cs =>
        have := (hac c (by rw [hd]; exact List.mem_cons_self _ _)).1
        simp [List.dropWhile, this]
    rw [trimSpaceChars_eq, h1]
    apply List.rdropWhile_eq_self_iff.2
    intro hl
    have hlast : (a.data ++ ',' :: ' ' :: b.data).getLast hl = b.data.getLast hbne := by
      have e : a.data ++ ',' :: ' ' :: b.data = (a.data ++ [',', ' ']) ++ b.data := by simp
      simp only [e]
      exact List.getLast_append_of_ne_nil hbne
    rw [hlast]
    have := (hbc _ (List.getLast_mem hbne)).1
    simp [this]
  refine ⟨?_, ?_, ?_, ?_, ?_, ?_⟩
  · apply String.ext
    show trimSpaceChars (a ++ ", " ++ b).data = _
    rw [hdata, htrim]
  · intro h
    rw [h] at hlen
    simp at hlen
  · intro h
    rw [h] at hlen
    simp at hlen
  · simp only [Split, hdata]
    rw [splitChars_append_sep ',' a.data _ (fun x hx => (hac x hx).2),
      splitChars_of_no_sep ',' (' ' :: b.data) (by
        intro x hx
        rcases List.mem_cons.1 hx with h | h
        · rw [h]; decide
        · exact (hbc x h).2)]
    rfl
  · apply String.ext
    exact trimSpaceChars_eq_self a.data hane (fun c hc => (hac c hc).1)
  · apply String.ext
    exact trimSpaceChars_space_cons b.data hbne (fun c hc => (hbc c hc).1)


/-- C6, as stated, fails: `A` and `B` are distinct field names of the table of `Twin`, and
the call with the selector `"A, B"` in reference mode returns one entry, not two, because
both fields have the storage key `"x"`. -/
theorem dbkeyMapValues_same_storage_key :
    (getOrAdd State.init exampleTwin).1.get "A" =
        some { dbkey := "x", vtype := exampleInt, offset := 0 } ∧
    (getOrAdd State.init exampleTwin).1.get "B" =
        some { dbkey := "x", vtype := exampleInt, offset := 8 } ∧
    (dbkeyMapValues exampleRange exampleMem State.init
      (Obj.typed (GoType.ptr exampleTwin) (some 1000)) "A, B" true).1 =
      Except.ok [("x", Iface.pointer exampleInt 1008)] :=
  ⟨rfl, rfl, rfl⟩

/-- C6, amended: on a non-nil pointer to a named struct, for two field names `a` and `b`
of the descriptor table whose storage keys differ, `dbkeyMapValues(obj, "a, b", true)`
succeeds and returns exactly two entries, under the storage key of `a` and the storage
key of `b`, each a pointer to the instance at the offset, and with the type, of the
descriptor; when the table is the one `newObjInfo` builds for the type, these are the
offset and type of the fields named `a` and `b`. -/
theorem dbkeyMapValues_two_pointers (rng : MapRange) (mem : Mem) (st : State) (tobj : GoType)
    (addr : Nat) (a b : String) (ia ib : s_ObjMember)
    (hs : tobj.Kind = Kind.Struct) (hn : tobj.Name ≠ "")
    (ha : isFieldName a = true) (hb : isFieldName b = true)
    (hga : (getOrAdd st tobj).1.get a = some ia) (hgb : (getOrAdd st tobj).1.get b = some ib)
    (hk : ia.dbkey ≠ ib.dbkey) :
    ∃ ps, dbkeyMapValues rng mem st (Obj.typed (GoType.ptr tobj) (some addr))
        (a ++ ", " ++ b) true = (Except.ok ps, (getOrAdd st tobj).2) ∧
      ps.length = 2 ∧
      ps.get ia.dbkey = some (Iface.pointer ia.vtype (addr + ia.offset)) ∧
      ps.get ib.dbkey = some (Iface.pointer ib.vtype (addr + ib.offset)) ∧
      ((getOrAdd st tobj).1 = newObjInfo st.colTags tobj →
        (∃ f ∈ tobj.fields, f.Name = a ∧ ia.vtype = f.Typ ∧ ia.offset = f.Offset) ∧
        (∃ f ∈ tobj.fields, f.Name = b ∧ ib.vtype = f.Typ ∧ ib.offset = f.Offset)) := by
  obtain ⟨h1, h2, h3, h4, h5, h6⟩ := selector_two a b ha hb
  have hrun := dbkeyMapValues_of_some rng mem st tobj addr (a ++ ", " ++ b) true hs hn
    (by rw [h1]; exact h2) (by rw [h1]; exact h3)
  rw [h1, h4] at hrun
  have hk' : ¬ ia.dbkey = ib.dbkey := hk
  have hk2 : ¬ ib.dbkey = ia.dbkey := fun e => hk e.symm
  refine ⟨[(ib.dbkey, memberPointer addr ib), (ia.dbkey, memberPointer addr ia)], ?_, rfl, ?_,
    ?_, ?_⟩
  · rw [hrun]
    simp [collectSome, h5, h6, hga, hgb, GoMap.set, GoMap.erase, hk']
  · simp [GoMap.get, hk2, memberPointer]
  · simp [GoMap.get, memberPointer]
  · intro htab
    have ea := newObjInfo_entry st.colTags tobj (a, ia) (htab ▸ GoMap.mem_of_get _ a ia hga)
    have eb := newObjInfo_entry st.colTags tobj (b, ib) (htab ▸ GoMap.mem_of_get _ b ib hgb)
    obtain ⟨f, hf, hfn, _, _, hft, hfo⟩ := ea
    obtain ⟨g, hg, hgn, _, _, hgt, hgo⟩ := eb
    exact ⟨⟨f, hf, hfn, hft, hfo⟩, ⟨g, hg, hgn, hgt, hgo⟩⟩

theorem dbkeyMapValues_two_pointers_witness :
    exampleUser.Kind = Kind.Struct ∧ exampleUser.Name ≠ "" ∧
    isFieldName "Name" = true ∧ isFieldName "Age" = true ∧
    (getOrAdd State.init exampleUser).1.get "Name" =
      some { dbkey := "user_name", vtype := exampleString, offset := 0 } ∧
    (getOrAdd State.init exampleUser).1.get "Age" =
      some { dbkey := "Age", vtype := exampleInt, offset := 32 } ∧
    "user_name" ≠ "Age" ∧
    ∃ ps, dbkeyMapValues exampleRange exampleMem State.init
        (Obj.typed (GoType.ptr exampleUser) (some 1000)) ("Name" ++ ", " ++ "Age") true =
        (Except.ok ps, (getOrAdd State.init exampleUser).2) ∧
      ps.length = 2 ∧
      ps.get "user_name" = some (Iface.pointer exampleString (1000 + 0)) ∧
      ps.get "Age" = some (Iface.pointer exampleInt (1000 + 32)) ∧
      ((getOrAdd State.init exampleUser).1 = newObjInfo State.init.colTags exampleUser →
        (∃ f ∈ exampleUser.fields, f.Name = "Name" ∧ exampleString = f.Typ ∧ 0 = f.Offset) ∧
        (∃ f ∈ exampleUser.fields, f.Name = "Age" ∧ exampleInt = f.Typ ∧ 32 = f.Offset)) :=
  ⟨by decide, by decide, by decide, by decide, rfl, rfl, by decide,
    dbkeyMapValues_two_pointers exampleRange exampleMem State.init exampleUser 1000
      "Name" "Age" { dbkey := "user_name", vtype := exampleString, offset := 0 }
      { dbkey := "Age", vtype := exampleInt, offset := 32 }
      (by decide) (by decide) (by decide) (by decide) rfl rfl (by decide)⟩

/-! ## The column-type extractor on its arguments, and cache keys -/

/-- C11: `dbkeyTypes` fails exactly when its argument is untyped nil or has a type that is
neither a struct nor a pointer to a struct; a pointer to a pointer fails; on a struct,
anonymous or not, and on a pointer to a struct, nil or not, it succeeds, and the pointer
gives the sequence the struct value gives. -/
theorem dbkeyTypes_fails_iff (st : State) (obj : Obj) :
    ((∃ e, dbkeyTypes st obj = Except.error e) ↔
      obj = Obj.nil ∨ ∃ t p, obj = Obj.typed t p ∧ t.Kind ≠ Kind.Struct ∧
        ∀ elem, t = GoType.ptr elem → elem.Kind ≠ Kind.Struct) ∧
    (dbkeyTypes st Obj.nil = Except.error Err.typesNilType) ∧
    (∀ elem p, dbkeyTypes st (Obj.typed (GoType.ptr (GoType.ptr elem)) p) =
      Except.error Err.typesNotStruct) ∧
    (∀ tobj p q, tobj.Kind = Kind.Struct →
      (∃ r, dbkeyTypes st (Obj.typed tobj q) = Except.ok r) ∧
      dbkeyTypes st (Obj.typed (GoType.ptr tobj) p) = dbkeyTypes st (Obj.typed tobj q)) ∧
    (∀ pkgPath str fields p,
      (∃ r, dbkeyTypes st (Obj.typed (GoType.struct pkgPath "" str fields) p) = Except.ok r) ∧
      ∃ r, dbkeyTypes st (Obj.typed (GoType.ptr (GoType.struct pkgPath "" str fields)) p) =
        Except.ok r) := by
  refine ⟨?_, rfl, fun _ _ => rfl, ?_, fun _ _ _ _ => ⟨⟨_, rfl⟩, ⟨_, rfl⟩⟩⟩
  · cases obj with
    | nil => exact ⟨fun _ => Or.inl rfl, fun _ => ⟨_, rfl⟩⟩
    | typed t p =>
      cases t with
      | struct a b c d =>
        constructor
        · rintro ⟨e, he⟩; cases he
        · rintro (h | ⟨t, p, h, hk, _⟩)
          · cases h
          · cases h; exact absurd rfl hk
      | other k a b c =>
        constructor
        · intro _
          exact Or.inr ⟨_, _, rfl, by simp [GoType.Kind], fun elem h => by cases h⟩
        · intro _; exact ⟨_, rfl⟩
      | ptr elem =>
        by_cases hs : elem.Kind = Kind.Struct
        · constructor
          · rintro ⟨e, he⟩
            simp [dbkeyTypes, hs] at he
          · rintro (h | ⟨t, p, h, _, hk⟩)
            · cases h
            · cases h; exact absurd hs (hk elem rfl)
        · constructor
          · intro _
            refine Or.inr ⟨_, _, rfl, by simp [GoType.Kind], fun e h => ?_⟩
            cases h; exact hs
          · intro _
            exact ⟨Err.typesNotStruct, by simp [dbkeyTypes, hs]⟩
  · intro tobj p q hs
    cases tobj with
    | struct a b c d => exact ⟨⟨_, rfl⟩, rfl⟩
    | other k a b c => simp [GoType.Kind] at hs
    | ptr e => simp [GoType.Kind] at hs

theorem dbkeyTypes_fails_iff_witness :
    exampleUser.Kind = Kind.Struct ∧
    (∃ r, dbkeyTypes State.init (Obj.typed exampleUser none) = Except.ok r) ∧
    dbkeyTypes State.init (Obj.typed (GoType.ptr exampleUser) (some 1000)) =
      dbkeyTypes State.init (Obj.typed exampleUser none) :=
  ⟨by decide, (dbkeyTypes_fails_iff State.init Obj.nil).2.2.2.1 exampleUser (some 1000) none
    (by decide)⟩

/-- C17 at the failing input: the two types `T` declared in two functions of package
`main` are different types with one cache key; after a call of `dbkeyMapValues` on an
instance of the first, the state is reachable, and the call on an instance of the second
works on the table of the first, which is not the table `newObjInfo` builds for the
second: it returns the first type's field `A` read at offset 0, and the selector `"B"`,
a field of the second type, is refused. -/
theorem dbkeyMapValues_shared_cache_key :
    cacheKey exampleLocalA = cacheKey exampleLocalB ∧
    exampleLocalA.fields.length ≠ exampleLocalB.fields.length ∧
    Reachable (dbkeyMapValues exampleRange exampleMem State.init
      (Obj.typed (GoType.ptr exampleLocalA) (some 1000)) "" false).2 ∧
    (getOrAdd (dbkeyMapValues exampleRange exampleMem State.init
      (Obj.typed (GoType.ptr exampleLocalA) (some 1000)) "" false).2 exampleLocalB).1 =
      newObjInfo State.init.colTags exampleLocalA ∧
    (newObjInfo State.init.colTags exampleLocalA).keys = ["A"] ∧
    (newObjInfo State.init.colTags exampleLocalB).keys = ["B", "Pad"] ∧
    (dbkeyMapValues exampleRange exampleMem
      (dbkeyMapValues exampleRange exampleMem State.init
        (Obj.typed (GoType.ptr exampleLocalA) (some 1000)) "" false).2
      (Obj.typed (GoType.ptr exampleLocalB) (some 2000)) "" false).1 =
      Except.ok [("A", Iface.value exampleInt 20000)] ∧
    (dbkeyMapValues exampleRange exampleMem
      (dbkeyMapValues exampleRange exampleMem State.init
        (Obj.typed (GoType.ptr exampleLocalA) (some 1000)) "" false).2
      (Obj.typed (GoType.ptr exampleLocalB) (some 2000)) "B" false).1 =
      Except.error (Err.notMember "B" exampleLocalB) :=
  ⟨by decide, by decide,
    ReachedBy.mapValues _ _ _ _ _ _ ReachedBy.init (fun _ _ _ => trivial), rfl, rfl, rfl, rfl,
    rfl⟩

/-! ## Value mode and reference mode -/

/-- An argument is either refused, with an error that depends on the argument alone and
with the state left as it was, or a non-nil pointer to a named struct. -/
theorem dbkeyMapValues_cases (obj : Obj) :
    (∃ e, ∀ rng mem st members ptr,
      dbkeyMapValues rng mem st obj members ptr = (Except.error e, st)) ∨
    (∃ tobj addr, obj = Obj.typed (GoType.ptr tobj) (some addr) ∧
      tobj.Kind = Kind.Struct ∧ tobj.Name ≠ "") := by
  cases obj with
  | nil => exact Or.inl ⟨_, fun _ _ _ _ _ => rfl⟩
  | typed t p =>
    cases t with
    | struct a b c d => exact Or.inl ⟨_, fun _ _ _ _ _ => rfl⟩
    | other k a b c => exact Or.inl ⟨_, fun _ _ _ _ _ => rfl⟩
    | ptr tobj =>
      by_cases hs : tobj.Kind = Kind.Struct
      · by_cases hn : tobj.Name = ""
        · refine Or.inl ⟨Err.anonymous, fun _ _ _ _ _ => ?_⟩
          simp only [dbkeyMapValues, hs, hn, ne_eq, not_true_eq_false, if_false, if_true]
        · cases p with
          | none =>
            refine Or.inl ⟨Err.nilPointer, fun _ _ _ _ _ => ?_⟩
            simp only [dbkeyMapValues, hs, hn, ne_eq, not_true_eq_false, if_false]
          | some addr => exact Or.inr ⟨tobj, addr, rfl, hs, hn⟩
      · refine Or.inl ⟨Err.notStruct, fun _ _ _ _ _ => ?_⟩
        simp only [dbkeyMapValues, hs, ne_eq, not_false_eq_true, if_true]

theorem GoMap.erase_map {V W : Type} (f : V → W) (m : GoMap V) (k : String) :
    GoMap.erase (m.map (Prod.map id f)) k = (m.erase k).map (Prod.map id f) := by
  induction m with
  | nil => rfl
  | cons e m ih =>
    obtain ⟨a, b⟩ := e
    by_cases h : a = k
    · simp [GoMap.erase, h, ih]
    · simp [GoMap.erase, h, ih]

theorem GoMap.set_map {V W : Type} (f : V → W) (m : GoMap V) (k : String) (v : V) :
    GoMap.set (m.map (Prod.map id f)) k (f v) = (m.set k v).map (Prod.map id f) := by
  simp [GoMap.set, GoMap.erase_map]

theorem GoMap.get_map {V W : Type} (f : V → W) (m : GoMap V) (k : String) :
    GoMap.get (m.map (Prod.map id f)) k = (m.get k).map f := by
  induction m with
  | nil => rfl
  | cons e m ih =>
    obtain ⟨a, b⟩ := e
    by_cases h : a = k
    · simp [GoMap.get, h]
    · simp [GoMap.get, h, ih]

theorem GoMap.keys_map {V W : Type} (f : V → W) (m : GoMap V) :
    GoMap.keys (m.map (Prod.map id f)) = m.keys := by
  simp [GoMap.keys, List.map_map, Function.comp_def]

theorem collectSome_map (this : s_ObjInfo) (val : s_ObjMember → Iface) (f : Iface → Iface)
    (tobj : GoType) (mnames : List String) (acc : GoMap Iface) :
    collectSome this (fun info => f (val info)) tobj mnames (acc.map (Prod.map id f)) =
      match collectSome this val tobj mnames acc with
      | Except.ok ps => Except.ok (ps.map (Prod.map id f))
      | Except.error e => Except.error e := by
  induction mnames generalizing acc with
  | nil => rfl
  | cons m ms ih =>
    cases hg : this.get (TrimSpace m) with
    | none => simp only [collectSome, hg]
    | some info =>
      simp only [collectSome, hg]
      rw [GoMap.set_map]
      exact ih _

theorem collectSome_pointers (this : s_ObjInfo) (addr : Nat) (tobj : GoType)
    (mnames : List String) (acc ps : GoMap Iface)
    (hacc : ∀ e ∈ acc, ∃ t a, e.2 = Iface.pointer t a)
    (h : collectSome this (memberPointer addr) tobj mnames acc = Except.ok ps) :
    ∀ e ∈ ps, ∃ t a, e.2 = Iface.pointer t a := by
  induction mnames generalizing acc with
  | nil =>
    simp only [collectSome] at h
    cases h
    exact hacc
  | cons m ms ih =>
    cases hg : this.get (TrimSpace m) with
    | none => simp only [collectSome, hg] at h; cases h
    | some info =>
      simp only [collectSome, hg] at h
      refine ih _ ?_ h
      intro e he
      rcases List.mem_cons.1 he with h1 | h1
      · exact ⟨_, _, by rw [h1]; rfl⟩
      · exact hacc e ((GoMap.mem_erase _ _ _).1 h1).1

theorem memberValue_eq_load (mem : Mem) (addr : Nat) :
    memberValue mem addr = fun info => Iface.load mem (memberPointer addr info) := rfl

/-- C18: for every argument and selector, from one state, `dbkeyMapValues` in reference
mode fails exactly when it fails in value mode, with the same error, and leaves the same
state; when both succeed on a selector that lists names, the two maps have the same keys,
every entry of the reference map is a pointer, and the value stored under a key in value
mode is the value that the pointer stored under that key designates. -/
theorem dbkeyMapValues_modes_agree (rng : MapRange) (mem : Mem) (st : State) (obj : Obj)
    (members : String) :
    ((∃ e, (dbkeyMapValues rng mem st obj members true).1 = Except.error e) ↔
      ∃ e, (dbkeyMapValues rng mem st obj members false).1 = Except.error e) ∧
    (∀ e, (dbkeyMapValues rng mem st obj members true).1 = Except.error e ↔
      (dbkeyMapValues rng mem st obj members false).1 = Except.error e) ∧
    (dbkeyMapValues rng mem st obj members true).2 =
      (dbkeyMapValues rng mem st obj members false).2 ∧
    (∀ ps vs, TrimSpace members ≠ "" → TrimSpace members ≠ "*" →
      (dbkeyMapValues rng mem st obj members true).1 = Except.ok ps →
      (dbkeyMapValues rng mem st obj members false).1 = Except.ok vs →
      vs.keys = ps.keys ∧
      (∀ k v, ps.get k = some v → ∃ t a, v = Iface.pointer t a) ∧
      ∀ k, vs.get k = (ps.get k).map (Iface.load mem)) := by
  have herr : ∀ e, (dbkeyMapValues rng mem st obj members true).1 = Except.error e ↔
      (dbkeyMapValues rng mem st obj members false).1 = Except.error e := by
    intro e
    rcases dbkeyMapValues_cases obj with ⟨e', h⟩ | ⟨tobj, addr, rfl, hs, hn⟩
    · rw [h, h]
    · by_cases hsel : TrimSpace members = "" ∨ TrimSpace members = "*"
      · rw [dbkeyMapValues_of_all rng mem st tobj addr members true hs hn hsel,
          dbkeyMapValues_of_all rng mem st tobj addr members false hs hn hsel]
        constructor <;> intro h <;> cases h
      · rw [not_or] at hsel
        rw [dbkeyMapValues_of_some rng mem st tobj addr members true hs hn hsel.1 hsel.2,
          dbkeyMapValues_of_some rng mem st tobj addr members false hs hn hsel.1 hsel.2]
        simp only [if_true, Bool.false_eq_true, if_false]
        have hm := collectSome_map (getOrAdd st tobj).1 (memberPointer addr) (Iface.load mem)
          tobj (Split (TrimSpace members) ',') []
        rw [memberValue_eq_load]
        simp only [List.map_nil] at hm
        rw [hm]
        cases collectSome (getOrAdd st tobj).1 (memberPointer addr) tobj
            (Split (TrimSpace members) ',') [] with
        | error e' => exact Iff.rfl
        | ok r => constructor <;> intro h <;> cases h
  refine ⟨⟨fun ⟨e, h⟩ => ⟨e, (herr e).1 h⟩, fun ⟨e, h⟩ => ⟨e, (herr e).2 h⟩⟩, herr, ?_, ?_⟩
  · rcases dbkeyMapValues_cases obj with ⟨e', h⟩ | ⟨tobj, addr, rfl, hs, hn⟩
    · rw [h, h]
    · by_cases hsel : TrimSpace members = "" ∨ TrimSpace members = "*"
      · rw [dbkeyMapValues_of_all rng mem st tobj addr members true hs hn hsel,
          dbkeyMapValues_of_all rng mem st tobj addr members false hs hn hsel]
      · rw [not_or] at hsel
        rw [dbkeyMapValues_of_some rng mem st tobj addr members true hs hn hsel.1 hsel.2,
          dbkeyMapValues_of_some rng mem st tobj addr members false hs hn hsel.1 hsel.2]
  · intro ps vs h1 h2 hps hvs
    rcases dbkeyMapValues_cases obj with ⟨e', h⟩ | ⟨tobj, addr, rfl, hs, hn⟩
    · rw [h] at hps; cases hps
    · rw [dbkeyMapValues_of_some rng mem st tobj addr members true hs hn h1 h2] at hps
      rw [dbkeyMapValues_of_some rng mem st tobj addr members false hs hn h1 h2] at hvs
      simp only [if_true, Bool.false_eq_true, if_false] at hps hvs
      have hm := collectSome_map (getOrAdd st tobj).1 (memberPointer addr) (Iface.load mem)
        tobj (Split (TrimSpace members) ',') []
      rw [memberValue_eq_load] at hvs
      simp only [List.map_nil] at hm
      rw [hm, hps] at hvs
      simp only [Except.ok.injEq] at hvs
      subst hvs
      refine ⟨GoMap.keys_map _ _, ?_, fun k => GoMap.get_map _ _ k⟩
      intro k v hk
      exact collectSome_pointers _ addr tobj _ [] ps (by simp) hps (k, v)
        (GoMap.mem_of_get ps k v hk)

theorem dbkeyMapValues_modes_agree_witness :
    (∃ e, (dbkeyMapValues exampleRange exampleMem State.init
      (Obj.typed (GoType.ptr exampleUser) (some 1000)) "Name, Password" false).1 =
      Except.error e) ∧
    ∃ e, (dbkeyMapValues exampleRange exampleMem State.init
      (Obj.typed (GoType.ptr exampleUser) (some 1000)) "Name, Password" true).1 =
      Except.error e :=
  ⟨⟨_, rfl⟩, (dbkeyMapValues_modes_agree exampleRange exampleMem State.init
    (Obj.typed (GoType.ptr exampleUser) (some 1000)) "Name, Password").1.2 ⟨_, rfl⟩⟩

/-! ## Lemmas on maps with comparable keys -/

theorem KMap.kmap_get_erase_ne {K V : Type} [DecidableEq K] (m : KMap K V) (k k' : K) (h : k' ≠ k) :
    (m.erase k).get k' = m.get k' := by
  induction m with
  | nil => rfl
  | cons e m ih =>
    obtain ⟨a, b⟩ := e
    by_cases hak : a = k
    · subst hak
      have : ¬ a = k' := fun h' => h h'.symm
      simp [KMap.erase, KMap.get, this, ih]
    · by_cases hak' : a = k'
      · subst hak'
        simp [KMap.erase, KMap.get, hak]
      · simp [KMap.erase, KMap.get, hak, hak', ih]

theorem KMap.kmap_get_set_self {K V : Type} [DecidableEq K] (m : KMap K V) (k : K) (v : V) :
    (m.set k v).get k = some v := by
  simp [KMap.set, KMap.get]

theorem KMap.kmap_get_set_ne {K V : Type} [DecidableEq K] (m : KMap K V) (k k' : K) (v : V)
    (h : k' ≠ k) : (m.set k v).get k' = m.get k' := by
  have h' : ¬ k = k' := fun e => h e.symm
  simp only [KMap.set, KMap.get, h', if_false]
  exact KMap.kmap_get_erase_ne m k k' h

theorem KMap.kmap_mem_erase {K V : Type} [DecidableEq K] (m : KMap K V) (k : K) (e : K × V) :
    e ∈ m.erase k ↔ e ∈ m ∧ e.1 ≠ k := by
  induction m with
  | nil => simp [KMap.erase]
  | cons x m ih =>
    obtain ⟨a, b⟩ := x
    by_cases hak : a = k
    · simp only [KMap.erase, hak, if_true, ih, List.mem_cons]
      constructor
      · rintro ⟨h1, h2⟩; exact ⟨Or.inr h1, h2⟩
      · rintro ⟨h1 | h1, h2⟩
        · subst h1; exact absurd rfl h2
        · exact ⟨h1, h2⟩
    · simp only [KMap.erase, hak, if_false, ih, List.mem_cons]
      constructor
      · rintro (h1 | ⟨h1, h2⟩)
        · subst h1; exact ⟨Or.inl rfl, hak⟩
        · exact ⟨Or.inr h1, h2⟩
      · rintro ⟨h1 | h1, h2⟩
        · exact Or.inl h1
        · exact Or.inr ⟨h1, h2⟩

theorem KMap.kmap_mem_keys_set {K V : Type} [DecidableEq K] (m : KMap K V) (k k' : K) (v : V) :
    k' ∈ (m.set k v).keys ↔ k' = k ∨ k' ∈ m.keys := by
  simp only [KMap.keys, KMap.set, List.map_cons, List.mem_cons, List.mem_map]
  constructor
  · rintro (h | ⟨e, he, rfl⟩)
    · exact Or.inl h
    · exact Or.inr ⟨e, ((KMap.kmap_mem_erase m k e).1 he).1, rfl⟩
  · rintro (h | ⟨e, he, rfl⟩)
    · exact Or.inl h
    · by_cases hk : e.1 = k
      · exact Or.inl hk
      · exact Or.inr ⟨e, (KMap.kmap_mem_erase m k e).2 ⟨he, hk⟩, rfl⟩

theorem KMap.kmap_mem_of_get {K V : Type} [DecidableEq K] (m : KMap K V) (k : K) (v : V)
    (h : m.get k = some v) : (k, v) ∈ m := by
  induction m with
  | nil => simp [KMap.get] at h
  | cons e m ih =>
    obtain ⟨a, b⟩ := e
    by_cases hak : a = k
    · simp [KMap.get, hak] at h
      simp [hak, h]
    · simp only [KMap.get, hak, if_false] at h
      exact List.mem_cons_of_mem _ (ih h)

theorem KMap.kmap_get_of_mem {K V : Type} [DecidableEq K] (m : KMap K V) (hd : m.keys.Nodup)
    (k : K) (v : V) (h : (k, v) ∈ m) : m.get k = some v := by
  induction m with
  | nil => simp at h
  | cons e m ih =>
    obtain ⟨a, b⟩ := e
    simp only [KMap.keys, List.map_cons, List.nodup_cons, List.mem_map, not_exists,
      not_and] at hd
    rcases List.mem_cons.1 h with h | h
    · cases h
      simp [KMap.get]
    · have hak : ¬ a = k := fun e => hd.1 (k, v) h e.symm
      simp only [KMap.get, hak, if_false]
      exact ih hd.2 h

theorem KMap.kmap_erase_sublist {K V : Type} [DecidableEq K] (m : KMap K V) (k : K) :
    (m.erase k).Sublist m := by
  induction m with
  | nil => exact List.Sublist.refl _
  | cons e m ih =>
    obtain ⟨a, b⟩ := e
    by_cases hak : a = k
    · simp only [KMap.erase, hak, if_true]
      exact List.Sublist.cons _ ih
    · simp only [KMap.erase, hak, if_false]
      exact List.Sublist.cons₂ _ ih

theorem KMap.kmap_keys_set_nodup {K V : Type} [DecidableEq K] (m : KMap K V) (hd : m.keys.Nodup)
    (k : K) (v : V) : (m.set k v).keys.Nodup := by
  simp only [KMap.set, KMap.keys, List.map_cons, List.nodup_cons]
  refine ⟨?_, hd.sublist (List.Sublist.map _ (KMap.kmap_erase_sublist m k))⟩
  intro h
  obtain ⟨e, he, hk⟩ := List.mem_map.1 h
  exact ((KMap.kmap_mem_erase m k e).1 he).2 hk

theorem KMap.kmap_erase_of_not_mem {K V : Type} [DecidableEq K] (m : KMap K V) (k : K)
    (h : k ∉ m.keys) : m.erase k = m := by
  induction m with
  | nil => rfl
  | cons e m ih =>
    obtain ⟨a, b⟩ := e
    simp only [KMap.keys, List.map_cons, List.mem_cons, not_or] at h
    have hak : ¬ a = k := fun e => h.1 e.symm
    simp only [KMap.erase, hak, if_false]
    rw [ih h.2]

/-- Two maps with the same entries, in any order, give the same lookups. -/
theorem KMap.get_eq_of_perm {K V : Type} [DecidableEq K] (m1 m2 : KMap K V)
    (hp : m1.Perm m2) (hd : m1.keys.Nodup) (k : K) : m1.get k = m2.get k := by
  have hd2 : m2.keys.Nodup := (hp.map Prod.fst).nodup_iff.1 hd
  apply Option.ext
  intro v
  constructor
  · intro h
    exact KMap.kmap_get_of_mem m2 hd2 k v (hp.mem_iff.1 (KMap.kmap_mem_of_get m1 k v h))
  · intro h
    exact KMap.kmap_get_of_mem m1 hd k v (hp.mem_iff.2 (KMap.kmap_mem_of_get m2 k v h))

/-! ## Slices -/

theorem Contains_iff {T : Type} [DecidableEq T] (items : List T) (v : T) :
    Contains items v = true ↔ v ∈ items := by
  induction items with
  | nil => simp [Contains]
  | cons x xs ih =>
    by_cases h : x = v
    · simp [Contains, h]
    · have h' : ¬ v = x := fun e => h e.symm
      simp [Contains, h, h', ih]

theorem SliceHas_iff {T : Type} [DecidableEq T] (items : List T) (v : T) :
    SliceHas items v = true ↔ v ∈ items := by
  induction items with
  | nil => simp [SliceHas]
  | cons x xs ih =>
    by_cases h : x = v
    · simp [SliceHas, h]
    · have h' : ¬ v = x := fun e => h e.symm
      simp [SliceHas, h, h', ih]

theorem SliceIndexOfFrom_not_mem {T : Type} [DecidableEq T] (items : List T) (v : T) (n : Nat)
    (h : v ∉ items) : SliceIndexOfFrom v items n = -1 := by
  induction items generalizing n with
  | nil => rfl
  | cons x xs ih =>
    simp only [List.mem_cons, not_or] at h
    have hx : ¬ x = v := fun e => h.1 e.symm
    simp only [SliceIndexOfFrom, hx, if_false]
    exact ih (n + 1) h.2

theorem SliceIndexOfFrom_mem {T : Type} [DecidableEq T] (items : List T) (v : T) (n : Nat)
    (h : v ∈ items) :
    ∃ i : Nat, SliceIndexOfFrom v items n = ((n + i : Nat) : Int) ∧ items[i]? = some v ∧
      ∀ j, j < i → items[j]? ≠ some v := by
  induction items generalizing n with
  | nil => simp at h
  | cons x xs ih =>
    by_cases hx : x = v
    · refine ⟨0, by simp [SliceIndexOfFrom, hx], by simp [hx], fun j hj => by omega⟩
    · have hmem : v ∈ xs := by
        rcases List.mem_cons.1 h with h' | h'
        · exact absurd h'.symm hx
        · exact h'
      obtain ⟨i, h1, h2, h3⟩ := ih (n + 1) hmem
      refine ⟨i + 1, ?_, by simpa using h2, ?_⟩
      · simp only [SliceIndexOfFrom, hx, if_false, h1]
        congr 1
        omega
      · intro j hj
        cases j with
        | zero => simpa using hx
        | succ j => simpa using h3 j (by omega)

/-- C14: when `v` occurs in `items`, `SliceIndexOf` returns the smallest index at which
`items` holds `v`; it returns -1 exactly when `v` does not occur; and `SliceHas` is true
exactly when `SliceIndexOf` is not -1. -/
theorem SliceIndexOf_spec {T : Type} [DecidableEq T] (items : List T) (v : T) :
    (v ∈ items → ∃ i : Nat, SliceIndexOf items v = (i : Int) ∧ items[i]? = some v ∧
      ∀ j, j < i → items[j]? ≠ some v) ∧
    (SliceIndexOf items v = -1 ↔ v ∉ items) ∧
    (SliceHas items v = true ↔ SliceIndexOf items v ≠ -1) := by
  have hneg : SliceIndexOf items v = -1 ↔ v ∉ items := by
    constructor
    · intro h hmem
      obtain ⟨i, h1, _, _⟩ := SliceIndexOfFrom_mem items v 0 hmem
      rw [SliceIndexOf, h1] at h
      omega
    · exact SliceIndexOfFrom_not_mem items v 0
  refine ⟨?_, hneg, ?_⟩
  · intro hmem
    obtain ⟨i, h1, h2, h3⟩ := SliceIndexOfFrom_mem items v 0 hmem
    exact ⟨i, by rw [SliceIndexOf, h1]; simp, h2, h3⟩
  · rw [SliceHas_iff, ne_eq, hneg, not_not]

theorem SliceIndexOf_spec_witness :
    (3 : Nat) ∈ [1, 3, 5, 3] ∧
    ∃ i : Nat, SliceIndexOf [1, 3, 5, 3] (3 : Nat) = (i : Int) ∧
      ([1, 3, 5, 3] : List Nat)[i]? = some 3 ∧
      ∀ j, j < i → ([1, 3, 5, 3] : List Nat)[j]? ≠ some 3 :=
  ⟨by decide, (SliceIndexOf_spec [1, 3, 5, 3] (3 : Nat)).1 (by decide)⟩

theorem SliceIntersectionLoop_eq {T : Type} [DecidableEq T] (items2 items1 items : List T) :
    SliceIntersectionLoop items2 items1 items =
      items ++ items1.filter (fun x => decide (x ∈ items2)) := by
  induction items1 generalizing items with
  | nil => simp [SliceIntersectionLoop]
  | cons x xs ih =>
    by_cases h : x ∈ items2
    · have hc : Contains items2 x = true := (Contains_iff items2 x).2 h
      simp [SliceIntersectionLoop, hc, ih, h]
    · have hc : ¬ Contains items2 x = true := fun e => h ((Contains_iff items2 x).1 e)
      simp [SliceIntersectionLoop, hc, ih, h]

/-- C15: `SliceIntersection(items1, items2)` is `items1` with the elements that do not
occur in `items2` left out, order and multiplicity kept; so an element occurs in the
result exactly when it occurs in both slices. -/
theorem SliceIntersection_spec {T : Type} [DecidableEq T] (items1 items2 : List T) :
    SliceIntersection items1 items2 = items1.filter (fun x => decide (x ∈ items2)) ∧
    (∀ x, x ∈ SliceIntersection items1 items2 ↔ x ∈ items1 ∧ x ∈ items2) ∧
    (SliceIntersection items1 items2).Sublist items1 ∧
    (∀ x, x ∈ items2 → (SliceIntersection items1 items2).count x = items1.count x) := by
  have h : SliceIntersection items1 items2 = items1.filter (fun x => decide (x ∈ items2)) := by
    simp [SliceIntersection, SliceIntersectionLoop_eq]
  refine ⟨h, ?_, ?_, ?_⟩
  · intro x
    rw [h]
    simp [List.mem_filter]
  · rw [h]
    exact List.filter_sublist _
  · intro x hx
    rw [h, List.count_filter]
    simpa using hx

theorem SliceIntersection_spec_witness :
    (1 : Nat) ∈ [1, 5, 9] ∧
    (SliceIntersection [3, 1, 4, 1, 5] [1, 5, 9]).count (1 : Nat) =
      ([3, 1, 4, 1, 5] : List Nat).count 1 :=
  ⟨by decide, (SliceIntersection_spec [3, 1, 4, 1, 5] [1, 5, 9]).2.2.2 (1 : Nat) (by decide)⟩

/-! ## Maps with comparable keys -/

theorem MapKeysToSliceLoop_eq {K V : Type} (es : List (K × V)) (keys : List K) :
    MapKeysToSliceLoop es keys = keys ++ es.map Prod.fst := by
  induction es generalizing keys with
  | nil => simp [MapKeysToSliceLoop]
  | cons e es ih =>
    obtain ⟨k, v⟩ := e
    simp [MapKeysToSliceLoop, ih]

theorem MapKeysToSlice_perm {K V : Type} (rng : KRange K V) (m : KMap K V) :
    (MapKeysToSlice rng m).Perm m.keys := by
  rw [MapKeysToSlice, MapKeysToSliceLoop_eq, List.nil_append]
  exact (rng.perm m).map Prod.fst

theorem SliceUniqueLoop_mem_keys {T : Type} [DecidableEq T] (items : List T) (m : KMap T Unit)
    (x : T) : x ∈ (SliceUniqueLoop items m).keys ↔ x ∈ items ∨ x ∈ m.keys := by
  induction items generalizing m with
  | nil => simp [SliceUniqueLoop]
  | cons a as ih =>
    simp only [SliceUniqueLoop, ih, KMap.kmap_mem_keys_set, List.mem_cons]
    constructor
    · rintro (h | h | h)
      · exact Or.inl (Or.inr h)
      · exact Or.inl (Or.inl h)
      · exact Or.inr h
    · rintro ((h | h) | h)
      · exact Or.inr (Or.inl h)
      · exact Or.inl h
      · exact Or.inr (Or.inr h)

theorem SliceUniqueLoop_keys_nodup {T : Type} [DecidableEq T] (items : List T) (m : KMap T Unit)
    (hd : m.keys.Nodup) : (SliceUniqueLoop items m).keys.Nodup := by
  induction items generalizing m with
  | nil => exact hd
  | cons a as ih => exact ih _ (KMap.kmap_keys_set_nodup m hd a ())

/-- C13: for any order of `range`, the result of `SliceUnique` has no element twice, holds
exactly the elements of `items`, each element of `items` once, and has as many elements as
`items` has distinct ones. -/
theorem SliceUnique_spec {T : Type} [DecidableEq T] (rng : KRange T Unit) (items : List T) :
    (SliceUnique rng items).Nodup ∧
    (∀ x, x ∈ SliceUnique rng items ↔ x ∈ items) ∧
    (∀ x, x ∈ items → (SliceUnique rng items).count x = 1) ∧
    (SliceUnique rng items).length = items.dedup.length := by
  have hp := MapKeysToSlice_perm rng (SliceUniqueLoop items [])
  have hnd : (SliceUnique rng items).Nodup :=
    hp.nodup_iff.2 (SliceUniqueLoop_keys_nodup items [] (by simp [KMap.keys]))
  have hmem : ∀ x, x ∈ SliceUnique rng items ↔ x ∈ items := by
    intro x
    rw [SliceUnique, hp.mem_iff, SliceUniqueLoop_mem_keys]
    simp [KMap.keys]
  refine ⟨hnd, hmem, ?_, ?_⟩
  · intro x hx
    exact List.count_eq_one_of_mem hnd ((hmem x).2 hx)
  · apply List.Perm.length_eq
    apply (List.perm_ext_iff_of_nodup hnd (List.nodup_dedup items)).2
    intro x
    rw [hmem, List.mem_dedup]

theorem SliceUnique_spec_witness :
    (3 : Nat) ∈ [3, 1, 3, 1, 5] ∧
    (SliceUnique (exampleKRange Nat Unit) [3, 1, 3, 1, 5]).count 3 = 1 :=
  ⟨by decide, (SliceUnique_spec (exampleKRange Nat Unit) [3, 1, 3, 1, 5]).2.2.1 3 (by decide)⟩

theorem MapSwapKeyValueLoop_eq {K V : Type} [DecidableEq V] (es : List (K × V)) (vk : KMap V K)
    (hv : (es.map Prod.snd).Nodup) (hvk : ∀ e ∈ es, e.2 ∉ vk.keys) :
    MapSwapKeyValueLoop es vk = (es.map Prod.swap).reverse ++ vk := by
  induction es generalizing vk with
  | nil => simp [MapSwapKeyValueLoop]
  | cons e es ih =>
    obtain ⟨k, v⟩ := e
    simp only [List.map_cons, List.nodup_cons, List.mem_map, not_exists, not_and] at hv
    have hnot : v ∉ vk.keys := hvk (k, v) (List.mem_cons_self _ _)
    simp only [MapSwapKeyValueLoop]
    rw [ih _ hv.2]
    · simp [KMap.set, KMap.kmap_erase_of_not_mem vk v hnot]
    · intro e he hmem
      rcases (KMap.kmap_mem_keys_set vk v e.2 k).1 hmem with h | h
      · exact hv.1 e he h
      · exact hvk e (List.mem_cons_of_mem _ he) h

theorem MapSwapKeyValue_perm {K V : Type} [DecidableEq V] (rng : KRange K V) (m : KMap K V)
    (hv : (m.map Prod.snd).Nodup) : (MapSwapKeyValue rng m).Perm (m.map Prod.swap) := by
  have hv' : ((rng.order m).map Prod.snd).Nodup := ((rng.perm m).map Prod.snd).nodup_iff.2 hv
  rw [MapSwapKeyValue, MapSwapKeyValueLoop_eq _ _ hv' (by simp [KMap.keys]), List.append_nil]
  exact (List.reverse_perm _).trans ((rng.perm m).map Prod.swap)

theorem map_swap_keys {K V : Type} (m : KMap K V) :
    KMap.keys (m.map Prod.swap) = m.map Prod.snd := by
  simp [KMap.keys, List.map_map, Function.comp_def]

theorem map_swap_values {K V : Type} (m : KMap K V) :
    (m.map Prod.swap).map Prod.snd = m.keys := by
  simp [KMap.keys, List.map_map, Function.comp_def]

/-- C16: for a map whose values are pairwise distinct, and any orders of `range`, the
result of `MapSwapKeyValue` maps `v` to `k` exactly when the map maps `k` to `v`, has as
many entries as the map, and swapping it again gives a map with the entries of the map:
the same number of them and the same value for every key. -/
theorem MapSwapKeyValue_spec {K V : Type} [DecidableEq K] [DecidableEq V] (rng : KRange K V)
    (rng2 : KRange V K) (m : KMap K V) (hk : m.keys.Nodup) (hv : (m.map Prod.snd).Nodup) :
    (∀ k v, (MapSwapKeyValue rng m).get v = some k ↔ m.get k = some v) ∧
    (MapSwapKeyValue rng m).length = m.length ∧
    (MapSwapKeyValue rng m).keys.Nodup ∧
    (∀ k, (MapSwapKeyValue rng2 (MapSwapKeyValue rng m)).get k = m.get k) ∧
    (MapSwapKeyValue rng2 (MapSwapKeyValue rng m)).length = m.length ∧
    (MapSwapKeyValue rng2 (MapSwapKeyValue rng m)).keys.Nodup := by
  have hp := MapSwapKeyValue_perm rng m hv
  have hkeys : (MapSwapKeyValue rng m).keys.Nodup := by
    have := (hp.map Prod.fst).nodup_iff.2
    apply this
    have e := map_swap_keys m
    simp only [KMap.keys] at e
    rw [e]
    exact hv
  have hvals : ((MapSwapKeyValue rng m).map Prod.snd).Nodup := by
    apply (hp.map Prod.snd).nodup_iff.2
    rw [map_swap_values]
    exact hk
  have hp2 := MapSwapKeyValue_perm rng2 (MapSwapKeyValue rng m) hvals
  have hp3 : (MapSwapKeyValue rng2 (MapSwapKeyValue rng m)).Perm m := by
    refine hp2.trans ((hp.map Prod.swap).trans ?_)
    simp [List.map_map, Function.comp_def]
  have hkeys2 : (MapSwapKeyValue rng2 (MapSwapKeyValue rng m)).keys.Nodup :=
    (hp3.map Prod.fst).nodup_iff.2 hk
  refine ⟨?_, ?_, hkeys, ?_, hp3.length_eq, hkeys2⟩
  · intro k v
    constructor
    · intro h
      have h1 := hp.mem_iff.1 (KMap.kmap_mem_of_get _ v k h)
      obtain ⟨e, he, hsw⟩ := List.mem_map.1 h1
      obtain ⟨a, b⟩ := e
      simp only [Prod.swap_prod_mk, Prod.mk.injEq] at hsw
      obtain ⟨rfl, rfl⟩ := hsw
      exact KMap.kmap_get_of_mem m hk a b he
    · intro h
      apply KMap.kmap_get_of_mem _ hkeys
      apply hp.mem_iff.2
      exact List.mem_map.2 ⟨(k, v), KMap.kmap_mem_of_get m k v h, rfl⟩
  · simpa using hp.length_eq
  · intro k
    exact KMap.get_eq_of_perm _ m hp3 hkeys2 k

theorem MapSwapKeyValue_spec_witness :
    (KMap.keys ([(1, "a"), (2, "b")] : KMap Nat String)).Nodup ∧
    (([(1, "a"), (2, "b")] : KMap Nat String).map Prod.snd).Nodup ∧
    ∀ k, (MapSwapKeyValue (exampleKRange String Nat)
      (MapSwapKeyValue (exampleKRange Nat String) [(1, "a"), (2, "b")])).get k =
      KMap.get ([(1, "a"), (2, "b")] : KMap Nat String) k :=
  ⟨by decide, by decide,
    (MapSwapKeyValue_spec (exampleKRange Nat String) (exampleKRange String Nat)
      [(1, "a"), (2, "b")] (by decide) (by decide)).2.2.2.1⟩

/-- C12 at the failing input: for a nil map `MapCopy` returns nil, but for every other map
it returns its argument, not the map it has filled; so for the map `{1: 10}` at address 0
the result is that same map, and `MapUpdate` of the result with `{2: 20}` adds the key 2
to the map that was to be copied. -/
theorem MapCopy_returns_argument :
    (∀ (rng : KRange Nat Nat) (h : MapHeap Nat Nat), MapCopy rng h none = (none, h)) ∧
    (∀ (rng : KRange Nat Nat) (h : MapHeap Nat Nat) (m : Option Nat),
      (MapCopy rng h m).1 = m) ∧
    MapCopy (exampleKRange Nat Nat) exampleHeap (some 0) =
      (some 0, [[(1, 10)], [(2, 20)], [(1, 10)]]) ∧
    MapUpdate (exampleKRange Nat Nat) (MapCopy (exampleKRange Nat Nat) exampleHeap (some 0)).2
      (MapCopy (exampleKRange Nat Nat) exampleHeap (some 0)).1 (some 1) =
      some [[(2, 20), (1, 10)], [(2, 20)], [(1, 10)]] ∧
    MapHeap.load exampleHeap 0 = [(1, 10)] ∧
    MapHeap.load ([[(2, 20), (1, 10)], [(2, 20)], [(1, 10)]] : MapHeap Nat Nat) 0 =
      [(2, 20), (1, 10)] := by
  refine ⟨fun _ _ => rfl, ?_, by decide, by decide, by decide, by decide⟩
  intro rng h m
  cases m <;> rfl

end GoFsky
